import Mathlib

/-! # Line searches of `lib/linesearch.cpp` (namespace `npl`)

A shallow embedding of `npl::Armijo::search` and `npl::Wolfe::search`, and the
properties of the two backtracking loops.  The two methods are embedded twice.

**In exact arithmetic** (`Armijo`, `Wolfe`).  This is the setting for the statements that
depend on the control flow and on the tests the code evaluates, not on rounding.

* A C++ `double` is an exact rational number (`ℚ`).  The one non-finite double the code
  itself produces, the `INFINITY` that `alpha` holds before the first iteration, is the
  top element of `WithTop ℚ`.
* `Eigen::VectorXd` is a list of rationals.  The three vector operations the code
  uses are `dot`, `+` and scalar `*`; they are written componentwise.

**In the arithmetic of `double`** (`fp.Armijo`, `fp.Wolfe`).  This is the setting for the
statements about the values of the step lengths `pow(opt_beta, m)*opt_s` and about
option fields that are not finite.

* The operations on doubles that the code uses are a parameter `fp.Arith D`, of which
  nothing is assumed: a theorem over every `fp.Arith D` holds whatever the rounding,
  the `pow` of the C library and the evaluation order of `Eigen` are.
* `binary64` is one such arithmetic: IEEE 754 binary64 with rounding to nearest, ties
  to even (`roundNat_spec`).  A finite double is a signed multiple of `2^-1074`; `pow`
  is the correctly rounded power; a vector expression is evaluated componentwise and a dot product
  from the left.  The calls evaluated in `binary64` use vectors of one component and
  take `pow` of a power of `2` only, where these choices make no difference.  The two
  zeros are distinct values that compare equal.

In both.

* `compVal(x, v)` writes the objective value at `x` into `v`, `compGrad(x, g)`
  writes the gradient at `x` into `g`; they are pure functions of the point.
* `opt_maxIt` is compared with the `size_t` counter `m`, it is a natural number.
* The calls of the two callbacks are recorded in a `Trace`, so that statements
  about how often and where they are evaluated can be made.
-/

namespace npl

/-- Dense vector of doubles, `Eigen::VectorXd`. -/
abbrev VectorXd := List ℚ

/-- Inner product `a.dot(b)`. -/
def dot (a b : VectorXd) : ℚ := (List.zipWith (fun p q => p * q) a b).sum

/-- Vector sum `a + b`. -/
def vadd (a b : VectorXd) : VectorXd := List.zipWith (fun p q => p + q) a b

/-- Scalar multiple `c * a`. -/
def smul (c : ℚ) (a : VectorXd) : VectorXd := a.map (fun p => c * p)

/-- Exceptions thrown by the searches. -/
inductive Exception where
  | invalid_argument (what : String)
  deriving DecidableEq, Repr

/-- Record of what one call did: the number of executed loop bodies, and the points
at which `compVal` and `compGrad` were called, in call order. -/
structure Trace where
  iters : Nat
  valCalls : List VectorXd
  gradCalls : List VectorXd
  deriving DecidableEq, Repr

/-- Nothing has happened yet. -/
def Trace.empty : Trace := ⟨0, [], []⟩

/-- A loop body is entered. -/
def Trace.enter (t : Trace) : Trace := ⟨t.iters + 1, t.valCalls, t.gradCalls⟩

/-- The value callback is called at `x`. -/
def Trace.val (t : Trace) (x : VectorXd) : Trace := ⟨t.iters, t.valCalls ++ [x], t.gradCalls⟩

/-- The gradient callback is called at `x`. -/
def Trace.grad (t : Trace) (x : VectorXd) : Trace := ⟨t.iters, t.valCalls, t.gradCalls ++ [x]⟩

/-- What a call of `search` leaves behind: the object after the call, the returned
step length or the exception thrown, and the record of the call. -/
structure Outcome (Obj : Type) where
  self : Obj
  ret : Except Exception ℚ
  trace : Trace

/-! ## Armijo -/

/-- The class `Armijo`: the bound value function and the public option fields. -/
structure Armijo where
  compVal : VectorXd → ℚ
  opt_s : ℚ
  opt_minstep : ℚ
  opt_beta : ℚ
  opt_sigma : ℚ
  opt_maxIt : Nat

/-- The constructor `Armijo::Armijo(valFunc)`. -/
def Armijo.new (valFunc : VectorXd → ℚ) : Armijo :=
  ⟨valFunc, 1, 1 / 10, 1 / 2, 1 / 100000, 10000⟩

/-- The `for` loop of `Armijo::search`, entered at counter `m` with the current
`alpha`; gives the returned step length (`0` when the loop is left without a
`return`). -/
def Armijo.loop (self : Armijo) (init_val : ℚ) (init_x direction : VectorXd)
    (gradDotDir : ℚ) (m : Nat) (alpha : WithTop ℚ) (t : Trace) : ℚ × Trace :=
  if m < self.opt_maxIt ∧ (self.opt_minstep : WithTop ℚ) < alpha then
    let alpha := self.opt_beta ^ m * self.opt_s
    let x := vadd init_x (smul alpha direction)
    let v := self.compVal x
    let t := t.enter.val x
    if init_val - v ≥ -self.opt_sigma * alpha * gradDotDir then
      (alpha, t)
    else
      Armijo.loop self init_val init_x direction gradDotDir (m + 1) (alpha : ℚ) t
  else
    (0, t)
termination_by self.opt_maxIt - m
decreasing_by omega

/-- The method `Armijo::search`. -/
def Armijo.search (self : Armijo) (init_val : ℚ) (init_x init_g direction : VectorXd) :
    Outcome Armijo :=
  let gradDotDir := dot init_g direction
  if self.opt_s ≤ 0 then
    ⟨self, .error (.invalid_argument "opt_s must be > 0"), Trace.empty⟩
  else
    let r := self.loop init_val init_x direction gradDotDir 0 ⊤ Trace.empty
    ⟨self, .ok r.1, r.2⟩

/-! ## Wolfe -/

/-- The class `Wolfe`: the bound value and gradient functions and the public option
fields. -/
structure Wolfe where
  compVal : VectorXd → ℚ
  compGrad : VectorXd → VectorXd
  opt_minstep : ℚ
  opt_s : ℚ
  opt_beta : ℚ
  opt_c1 : ℚ
  opt_c2 : ℚ
  opt_maxIt : Nat

/-- The constructor `Wolfe::Wolfe(valFunc, gradFunc)`. -/
def Wolfe.new (valFunc : VectorXd → ℚ) (gradFunc : VectorXd → VectorXd) : Wolfe :=
  ⟨valFunc, gradFunc, 1 / 10, 1, 1 / 2, 1 / 100000, 9 / 10, 10000⟩

/-- The `for` loop of `Wolfe::search`, entered at counter `m` with the current
`alpha`; gives the returned step length (`0` when the loop is left without a
`return`). -/
def Wolfe.loop (self : Wolfe) (init_val : ℚ) (init_x direction : VectorXd)
    (gradDotDir : ℚ) (m : Nat) (alpha : WithTop ℚ) (t : Trace) : ℚ × Trace :=
  if m < self.opt_maxIt ∧ (self.opt_minstep : WithTop ℚ) < alpha then
    let alpha := self.opt_beta ^ m * self.opt_s
    let x := vadd init_x (smul alpha direction)
    let v := self.compVal x
    let t := t.enter.val x
    if init_val - v ≥ -self.opt_c1 * alpha * gradDotDir then
      let g := self.compGrad x
      let t := t.grad x
      if dot g direction ≥ self.opt_c2 * gradDotDir then
        (alpha, t)
      else
        Wolfe.loop self init_val init_x direction gradDotDir (m + 1) (alpha : ℚ) t
    else
      Wolfe.loop self init_val init_x direction gradDotDir (m + 1) (alpha : ℚ) t
  else
    (0, t)
termination_by self.opt_maxIt - m
decreasing_by all_goals omega

/-- The method `Wolfe::search`. -/
def Wolfe.search (self : Wolfe) (init_val : ℚ) (init_x init_g direction : VectorXd) :
    Outcome Wolfe :=
  let gradDotDir := dot init_g direction
  if self.opt_s ≤ 0 then
    ⟨self, .error (.invalid_argument "opt_s must be > 0"), Trace.empty⟩
  else
    let r := self.loop init_val init_x direction gradDotDir 0 ⊤ Trace.empty
    ⟨self, .ok r.1, r.2⟩

/-! ## The quantities the statements are about -/

/-- The step length `pow(opt_beta, m)*opt_s` of iteration `m`. -/
def stepLength (opt_beta opt_s : ℚ) (m : Nat) : ℚ := opt_beta ^ m * opt_s

/-- The point `init_x + a*direction` of a step length `a`. -/
def stepPoint (init_x direction : VectorXd) (a : ℚ) : VectorXd :=
  vadd init_x (smul a direction)

/-- The sufficient decrease test of the two loops at a step length `a`, with constant
`c` (`opt_sigma` for Armijo, `opt_c1` for Wolfe). -/
def decrease (compVal : VectorXd → ℚ) (c init_val : ℚ) (init_x direction : VectorXd)
    (gradDotDir a : ℚ) : Prop :=
  init_val - compVal (stepPoint init_x direction a) ≥ -c * a * gradDotDir

instance (compVal : VectorXd → ℚ) (c init_val : ℚ) (init_x direction : VectorXd)
    (gradDotDir a : ℚ) : Decidable (decrease compVal c init_val init_x direction gradDotDir a) :=
  inferInstanceAs (Decidable (_ ≥ _))

/-- The curvature test of the Wolfe loop at a step length `a`. -/
def curvature (compGrad : VectorXd → VectorXd) (c2 : ℚ) (init_x direction : VectorXd)
    (gradDotDir a : ℚ) : Prop :=
  dot (compGrad (stepPoint init_x direction a)) direction ≥ c2 * gradDotDir

instance (compGrad : VectorXd → VectorXd) (c2 : ℚ) (init_x direction : VectorXd)
    (gradDotDir a : ℚ) : Decidable (curvature compGrad c2 init_x direction gradDotDir a) :=
  inferInstanceAs (Decidable (_ ≥ _))

/-- The step length tested in iteration `m` of `Armijo::search`. -/
def Armijo.candidate (self : Armijo) (m : Nat) : ℚ := stepLength self.opt_beta self.opt_s m

/-- The acceptance test of `Armijo::search` at a step length `a`. -/
def Armijo.accepts (self : Armijo) (init_val : ℚ) (init_x init_g direction : VectorXd)
    (a : ℚ) : Prop :=
  decrease self.compVal self.opt_sigma init_val init_x direction (dot init_g direction) a

/-- The step length tested in iteration `m` of `Wolfe::search`. -/
def Wolfe.candidate (self : Wolfe) (m : Nat) : ℚ := stepLength self.opt_beta self.opt_s m

/-- The first gate of `Wolfe::search` at a step length `a`: sufficient decrease. -/
def Wolfe.gate (self : Wolfe) (init_val : ℚ) (init_x init_g direction : VectorXd)
    (a : ℚ) : Prop :=
  decrease self.compVal self.opt_c1 init_val init_x direction (dot init_g direction) a

instance (self : Wolfe) (init_val : ℚ) (init_x init_g direction : VectorXd) (a : ℚ) :
    Decidable (self.gate init_val init_x init_g direction a) :=
  inferInstanceAs (Decidable (decrease _ _ _ _ _ _ _))

/-- The acceptance test of `Wolfe::search` at a step length `a`: both gates. -/
def Wolfe.accepts (self : Wolfe) (init_val : ℚ) (init_x init_g direction : VectorXd)
    (a : ℚ) : Prop :=
  self.gate init_val init_x init_g direction a ∧
    curvature self.compGrad self.opt_c2 init_x direction (dot init_g direction) a

/-- Iteration `m` is reached by the loop guard alone: the counter is below the cap and
the step length of the iteration before it, if there is one, exceeds `opt_minstep`. -/
def reached (opt_maxIt : Nat) (opt_minstep opt_beta opt_s : ℚ) (m : Nat) : Prop :=
  m < opt_maxIt ∧ (m = 0 ∨ opt_minstep < stepLength opt_beta opt_s (m - 1))

/-- A run of a backtracking loop that is entered at counter `m` with step length
`alpha`, executes `n` bodies and gives `r`: the guard held before each body, every
body but the last rejected its candidate, and either the last body accepted and `r`
is its candidate, or no body accepted, the guard failed after the last one and `r`
is `0`. -/
structure Run (opt_maxIt : Nat) (opt_minstep : ℚ) (cand : Nat → ℚ) (acc : Nat → Prop)
    (m : Nat) (alpha : WithTop ℚ) (r : ℚ) (n : Nat) : Prop where
  first : 0 < n → (opt_minstep : WithTop ℚ) < alpha
  bound : 0 < n → m + n ≤ opt_maxIt
  prev : ∀ k, m ≤ k → k + 1 < m + n → opt_minstep < cand k
  rejects : ∀ k, m ≤ k → k + 1 < m + n → ¬ acc k
  final : (0 < n ∧ acc (m + n - 1) ∧ r = cand (m + n - 1)) ∨
    (r = 0 ∧ (0 < n → ¬ acc (m + n - 1)) ∧
      ¬ (m + n < opt_maxIt ∧
        (opt_minstep : WithTop ℚ) < (if n = 0 then alpha else (cand (m + n - 1) : ℚ))))

/-! ## Objectives used at concrete inputs -/

/-- The quadratic objective `f(x) = x·x` (`x²` in one dimension). -/
def quadratic (x : VectorXd) : ℚ := dot x x

/-- The gradient `2x` of `quadratic`. -/
def quadraticGrad (x : VectorXd) : VectorXd := smul 2 x

/-- The objective `f(x) = x₀`, which increases along the direction `[1]`. -/
def rising (x : VectorXd) : ℚ := x.headD 0

/-- The convex quadratic `f(x) = x·x - x₀/10`: in one dimension it falls from `0` up to
`1/20` and is below `f(0)` exactly on `(0, 1/10)`. -/
def tilted (x : VectorXd) : ℚ := dot x x - dot [1 / 10] x

/-- The gradient `2x - 1/10` of `tilted`. -/
def tiltedGrad (x : VectorXd) : VectorXd := vadd (smul 2 x) [-(1 / 10)]

namespace fp

/-- The operations on `double` that the two searches use, as the platform provides
them: the literal `0`, `INFINITY`, the comparisons `<=`, `>`, `>=`, unary minus, `-`,
`*`, `pow(x, m)` for a `size_t` exponent, and the two `Eigen` expressions
`a.dot(b)` and `init_x + alpha*direction`.  Nothing is assumed about them. -/
structure Arith (D : Type) where
  zero : D
  infinity : D
  le : D → D → Bool
  gt : D → D → Bool
  ge : D → D → Bool
  neg : D → D
  sub : D → D → D
  mul : D → D → D
  pow : D → Nat → D
  dot : List D → List D → D
  axpy : List D → D → List D → List D

/-- Record of what one call did: the number of executed loop bodies, and the points
at which `compVal` and `compGrad` were called, in call order. -/
structure Trace (D : Type) where
  iters : Nat
  valCalls : List (List D)
  gradCalls : List (List D)

/-- Nothing has happened yet. -/
def Trace.empty {D : Type} : Trace D := ⟨0, [], []⟩

/-- A loop body is entered. -/
def Trace.enter {D : Type} (t : Trace D) : Trace D := ⟨t.iters + 1, t.valCalls, t.gradCalls⟩

/-- The value callback is called at `x`. -/
def Trace.val {D : Type} (t : Trace D) (x : List D) : Trace D :=
  ⟨t.iters, t.valCalls ++ [x], t.gradCalls⟩

/-- The gradient callback is called at `x`. -/
def Trace.grad {D : Type} (t : Trace D) (x : List D) : Trace D :=
  ⟨t.iters, t.valCalls, t.gradCalls ++ [x]⟩

/-- What a call of `search` gives: the returned step length or the exception thrown,
and the record of the call. -/
structure Outcome (D : Type) where
  ret : Except Exception D
  trace : Trace D

/-- The class `Armijo`, its option fields being doubles. -/
structure Armijo (D : Type) where
  compVal : List D → D
  opt_s : D
  opt_minstep : D
  opt_beta : D
  opt_sigma : D
  opt_maxIt : Nat

/-- The `for` loop of `Armijo::search`, entered at counter `m` with the current
`alpha`; gives the returned step length (`0` when the loop is left without a
`return`). -/
def Armijo.loop {D : Type} (A : Arith D) (self : Armijo D) (init_val : D)
    (init_x direction : List D) (gradDotDir : D) (m : Nat) (alpha : D) (t : Trace D) :
    D × Trace D :=
  if m < self.opt_maxIt ∧ A.gt alpha self.opt_minstep = true then
    let alpha := A.mul (A.pow self.opt_beta m) self.opt_s
    let x := A.axpy init_x alpha direction
    let v := self.compVal x
    let t := t.enter.val x
    if A.ge (A.sub init_val v) (A.mul (A.mul (A.neg self.opt_sigma) alpha) gradDotDir) = true then
      (alpha, t)
    else
      Armijo.loop A self init_val init_x direction gradDotDir (m + 1) alpha t
  else
    (A.zero, t)
termination_by self.opt_maxIt - m
decreasing_by omega

/-- The method `Armijo::search`. -/
def Armijo.search {D : Type} (A : Arith D) (self : Armijo D) (init_val : D)
    (init_x init_g direction : List D) : Outcome D :=
  let gradDotDir := A.dot init_g direction
  if A.le self.opt_s A.zero = true then
    ⟨.error (.invalid_argument "opt_s must be > 0"), Trace.empty⟩
  else
    let r := Armijo.loop A self init_val init_x direction gradDotDir 0 A.infinity Trace.empty
    ⟨.ok r.1, r.2⟩

/-- The class `Wolfe`, its option fields being doubles. -/
structure Wolfe (D : Type) where
  compVal : List D → D
  compGrad : List D → List D
  opt_minstep : D
  opt_s : D
  opt_beta : D
  opt_c1 : D
  opt_c2 : D
  opt_maxIt : Nat

/-- The `for` loop of `Wolfe::search`, entered at counter `m` with the current
`alpha`; gives the returned step length (`0` when the loop is left without a
`return`). -/
def Wolfe.loop {D : Type} (A : Arith D) (self : Wolfe D) (init_val : D)
    (init_x direction : List D) (gradDotDir : D) (m : Nat) (alpha : D) (t : Trace D) :
    D × Trace D :=
  if m < self.opt_maxIt ∧ A.gt alpha self.opt_minstep = true then
    let alpha := A.mul (A.pow self.opt_beta m) self.opt_s
    let x := A.axpy init_x alpha direction
    let v := self.compVal x
    let t := t.enter.val x
    if A.ge (A.sub init_val v) (A.mul (A.mul (A.neg self.opt_c1) alpha) gradDotDir) = true then
      let g := self.compGrad x
      let t := t.grad x
      if A.ge (A.dot g direction) (A.mul self.opt_c2 gradDotDir) = true then
        (alpha, t)
      else
        Wolfe.loop A self init_val init_x direction gradDotDir (m + 1) alpha t
    else
      Wolfe.loop A self init_val init_x direction gradDotDir (m + 1) alpha t
  else
    (A.zero, t)
termination_by self.opt_maxIt - m
decreasing_by all_goals omega

/-- The method `Wolfe::search`. -/
def Wolfe.search {D : Type} (A : Arith D) (self : Wolfe D) (init_val : D)
    (init_x init_g direction : List D) : Outcome D :=
  let gradDotDir := A.dot init_g direction
  if A.le self.opt_s A.zero = true then
    ⟨.error (.invalid_argument "opt_s must be > 0"), Trace.empty⟩
  else
    let r := Wolfe.loop A self init_val init_x direction gradDotDir 0 A.infinity Trace.empty
    ⟨.ok r.1, r.2⟩

/-- The step length `pow(opt_beta, m)*opt_s` that iteration `m` computes. -/
def candidate {D : Type} (A : Arith D) (opt_beta opt_s : D) (m : Nat) : D :=
  A.mul (A.pow opt_beta m) opt_s

/-- The value of `alpha` when the loop guard is evaluated at counter `m`: `INFINITY` at
`m = 0`, then the step length of the iteration before. -/
def alphaBefore {D : Type} (A : Arith D) (opt_beta opt_s : D) (m : Nat) : D :=
  if m = 0 then A.infinity else candidate A opt_beta opt_s (m - 1)

/-- The sufficient decrease test of the two loops as the code evaluates it at a step
length `a`, with constant `c` (`opt_sigma` for Armijo, `opt_c1` for Wolfe). -/
def decrease {D : Type} (A : Arith D) (compVal : List D → D) (c init_val : D)
    (init_x init_g direction : List D) (a : D) : Bool :=
  A.ge (A.sub init_val (compVal (A.axpy init_x a direction)))
    (A.mul (A.mul (A.neg c) a) (A.dot init_g direction))

/-- The acceptance test of `Armijo::search` at a step length `a`. -/
def Armijo.accepts {D : Type} (A : Arith D) (self : Armijo D) (init_val : D)
    (init_x init_g direction : List D) (a : D) : Bool :=
  decrease A self.compVal self.opt_sigma init_val init_x init_g direction a

/-- The acceptance test of `Wolfe::search` at a step length `a`: both gates. -/
def Wolfe.accepts {D : Type} (A : Arith D) (self : Wolfe D) (init_val : D)
    (init_x init_g direction : List D) (a : D) : Bool :=
  decrease A self.compVal self.opt_c1 init_val init_x init_g direction a &&
    A.ge (A.dot (self.compGrad (A.axpy init_x a direction)) direction)
      (A.mul self.opt_c2 (A.dot init_g direction))

/-- A run of a backtracking loop entered at counter `m` that executes `n` bodies and
gives `r`: the guard held before each body, every body but the last rejected its
candidate, and either the last body accepted and `r` is its candidate, or no body
accepted, the guard failed after the last one and `r` is `0`. -/
structure Run {D : Type} (A : Arith D) (opt_maxIt : Nat) (opt_minstep opt_beta opt_s : D)
    (acc : Nat → Bool) (m n : Nat) (r : D) : Prop where
  guard : ∀ k, m ≤ k → k < m + n →
    k < opt_maxIt ∧ A.gt (alphaBefore A opt_beta opt_s k) opt_minstep = true
  rejects : ∀ k, m ≤ k → k + 1 < m + n → acc k = false
  final : (0 < n ∧ acc (m + n - 1) = true ∧ r = candidate A opt_beta opt_s (m + n - 1)) ∨
    (r = A.zero ∧ (0 < n → acc (m + n - 1) = false) ∧
      ¬ (m + n < opt_maxIt ∧ A.gt (alphaBefore A opt_beta opt_s (m + n)) opt_minstep = true))

end fp

/-! ## IEEE 754 binary64 -/

/-- A `double`: every finite binary64 number is a multiple `±mag * 2^-1074` of the
smallest subnormal; then the two infinities and NaN. -/
inductive Double where
  | fin (negative : Bool) (mag : Nat)
  | inf (negative : Bool)
  | nan
  deriving DecidableEq, Repr

namespace Double

/-- Least `k` from `k` on with `n < 2^(2^k)`. -/
def log2Bound : Nat → Nat → Nat → Nat
  | 0, k, _ => k
  | fuel + 1, k, n => if n < 2 ^ 2 ^ k then k else log2Bound fuel (k + 1) n

/-- Bisection: given `2^lo <= n < 2^(lo + 2^k)`, the `l` with `2^l <= n < 2^(l+1)`. -/
def log2Search : Nat → Nat → Nat → Nat
  | 0, lo, _ => lo
  | k + 1, lo, n =>
    if 2 ^ (lo + 2 ^ k) ≤ n then log2Search k (lo + 2 ^ k) n else log2Search k lo n

/-- Number of binary digits of `n`. -/
def bitLength (n : Nat) : Nat :=
  if n = 0 then 0 else log2Search (log2Bound n 0 n) 0 n + 1

/-- Round to nearest, ties to even: the magnitude, in units of `2^-1074`, of the
binary64 number nearest to `n / 2^s` units (53 significant digits, and no digit below
the unit). -/
def roundNat (n s : Nat) : Nat :=
  let q := bitLength n - 53 - s
  let t := s + q
  let d := n / 2 ^ t
  let r := n % 2 ^ t
  (if 2 ^ t < 2 * r ∨ (2 * r = 2 ^ t ∧ d % 2 = 1) then d + 1 else d) * 2 ^ q

/-- The double of a rounded magnitude: it overflows to an infinity from `2^1024` on. -/
def ofRounded (negative : Bool) (mag : Nat) : Double :=
  if 2 ^ 2098 ≤ mag then inf negative else fin negative mag

/-- Unary minus. -/
def neg : Double → Double
  | fin s a => fin (!s) a
  | inf s => inf (!s)
  | nan => nan

/-- Correctly rounded `a * b`. -/
def mul : Double → Double → Double
  | fin sa a, fin sb b => ofRounded (xor sa sb) (roundNat (a * b) 1074)
  | fin sa a, inf sb => if a = 0 then nan else inf (xor sa sb)
  | inf sa, fin sb b => if b = 0 then nan else inf (xor sa sb)
  | inf sa, inf sb => inf (xor sa sb)
  | _, _ => nan

/-- Correctly rounded `a + b`. -/
def add : Double → Double → Double
  | fin sa a, fin sb b =>
    if sa = sb then ofRounded sa (roundNat (a + b) 0)
    else if a = b then fin false 0
    else if b < a then ofRounded sa (roundNat (a - b) 0)
    else ofRounded sb (roundNat (b - a) 0)
  | fin _ _, inf sb => inf sb
  | inf sa, fin _ _ => inf sa
  | inf sa, inf sb => if sa = sb then inf sa else nan
  | _, _ => nan

/-- Correctly rounded `a - b`. -/
def sub (a b : Double) : Double := add a (neg b)

/-- The function `pow(x, m)` for a natural number `m`, correctly rounded. -/
def pow : Double → Nat → Double
  | _, 0 => fin false (2 ^ 1074)
  | fin s a, m + 1 => ofRounded (s && decide (m % 2 = 0)) (roundNat (a ^ (m + 1)) (1074 * m))
  | inf s, m + 1 => inf (s && decide (m % 2 = 0))
  | nan, _ + 1 => nan

/-- The comparison `a < b`. -/
def lt : Double → Double → Bool
  | fin false a, fin false b => decide (a < b)
  | fin true a, fin true b => decide (b < a)
  | fin true a, fin false b => decide (a ≠ 0 ∨ b ≠ 0)
  | fin false _, fin true _ => false
  | fin _ _, inf sb => !sb
  | inf sa, fin _ _ => sa
  | inf sa, inf sb => sa && !sb
  | _, _ => false

/-- The comparison `a == b`. -/
def eq : Double → Double → Bool
  | fin sa a, fin sb b => decide (a = b ∧ (sa = sb ∨ a = 0))
  | inf sa, inf sb => decide (sa = sb)
  | _, _ => false

/-- The comparison `a <= b`. -/
def le (a b : Double) : Bool := lt a b || eq a b

/-- The vector `x + alpha*d`, componentwise. -/
def axpy (x : List Double) (alpha : Double) (d : List Double) : List Double :=
  List.zipWith (fun p q => add p (mul alpha q)) x d

/-- The inner product, summed from the left. -/
def dot (a b : List Double) : Double :=
  (List.zipWith mul a b).foldl add (fin false 0)

end Double

/-- The arithmetic of IEEE 754 binary64 with rounding to nearest, ties to even. -/
def binary64 : fp.Arith Double where
  zero := .fin false 0
  infinity := .inf false
  le := Double.le
  gt := fun a b => Double.lt b a
  ge := fun a b => Double.le b a
  neg := Double.neg
  sub := Double.sub
  mul := Double.mul
  pow := Double.pow
  dot := Double.dot
  axpy := Double.axpy

namespace Double

/-- The double `2^e`, for `-1074 <= e <= 1023`. -/
def pow2 (e : ℤ) : Double := fin false (2 ^ (e + 1074).toNat)

/-- The subnormal double `k * 2^-1074`, for `k < 2^52`. -/
def subnormal (k : Nat) : Double := fin false k

end Double

/-- The objective `f(x) = x₀` on doubles. -/
def firstCoordinate (x : List Double) : Double := x.headD (.fin false 0)

/-- An `Armijo` object with `opt_s = 5 * 2^-1074`, `opt_minstep = 4 * 2^-1074`,
`opt_beta = 1/2`, `opt_sigma = 2^-16` and the default `opt_maxIt`, on the objective
`f(x) = x₀`. -/
def tieArmijo : fp.Armijo Double :=
  ⟨firstCoordinate, Double.subnormal 5, Double.subnormal 4, Double.pow2 (-1), Double.pow2 (-16),
    10000⟩

/-- A `Wolfe` object with the options of `tieArmijo`, `opt_c2 = 1/2` and the gradient
`g(x) = [1]` of the objective. -/
def tieWolfe : fp.Wolfe Double :=
  ⟨firstCoordinate, fun _ => [Double.pow2 0], Double.subnormal 4, Double.subnormal 5,
    Double.pow2 (-1), Double.pow2 (-16), Double.pow2 (-1), 10000⟩

/-- An `Armijo` object with `opt_s = 4 * 2^-1074`, `opt_minstep`, `opt_beta = 1/2`,
`opt_sigma = 2^-16` and `opt_maxIt = 1`, on the objective `f(x) = x₀`. -/
def smallStepArmijo (opt_minstep : Double) : fp.Armijo Double :=
  ⟨firstCoordinate, Double.subnormal 4, opt_minstep, Double.pow2 (-1), Double.pow2 (-16), 1⟩

/-- A `Wolfe` object with the options of `smallStepArmijo`, `opt_c2 = 1/2` and the
gradient `g(x) = [1]` of the objective. -/
def smallStepWolfe (opt_minstep : Double) : fp.Wolfe Double :=
  ⟨firstCoordinate, fun _ => [Double.pow2 0], opt_minstep, Double.subnormal 4,
    Double.pow2 (-1), Double.pow2 (-16), Double.pow2 (-1), 1⟩

/-! ## The loops, characterised -/

theorem Run.stop {opt_maxIt : Nat} {opt_minstep : ℚ} {cand : Nat → ℚ} {acc : Nat → Prop}
    {m : Nat} {alpha : WithTop ℚ}
    (h : ¬ (m < opt_maxIt ∧ (opt_minstep : WithTop ℚ) < alpha)) :
    Run opt_maxIt opt_minstep cand acc m alpha 0 0 := by
  refine ⟨by simp, by simp, ?_, ?_, Or.inr ⟨rfl, by simp, by simpa using h⟩⟩
  · intro k h1 h2; omega
  · intro k h1 h2; omega

theorem Run.accept {opt_maxIt : Nat} {opt_minstep : ℚ} {cand : Nat → ℚ} {acc : Nat → Prop}
    {m : Nat} {alpha : WithTop ℚ}
    (h : m < opt_maxIt ∧ (opt_minstep : WithTop ℚ) < alpha) (ha : acc m) :
    Run opt_maxIt opt_minstep cand acc m alpha (cand m) 1 := by
  refine ⟨fun _ => h.2, fun _ => h.1, ?_, ?_, Or.inl ⟨by simp, by simpa using ha, by simp⟩⟩
  · intro k h1 h2; omega
  · intro k h1 h2; omega

theorem Run.reject {opt_maxIt : Nat} {opt_minstep : ℚ} {cand : Nat → ℚ} {acc : Nat → Prop}
    {m : Nat} {alpha : WithTop ℚ} {r : ℚ} {n : Nat}
    (h : m < opt_maxIt ∧ (opt_minstep : WithTop ℚ) < alpha) (ha : ¬ acc m)
    (hr : Run opt_maxIt opt_minstep cand acc (m + 1) (cand m : ℚ) r n) :
    Run opt_maxIt opt_minstep cand acc m alpha r (n + 1) := by
  have e : m + (n + 1) - 1 = m + n := by omega
  refine ⟨fun _ => h.2, fun _ => ?_, ?_, ?_, ?_⟩
  · rcases Nat.eq_zero_or_pos n with h0 | h0
    · subst h0; exact h.1
    · have := hr.bound h0; omega
  · intro k h1 h2
    rcases Nat.eq_or_lt_of_le h1 with h3 | h3
    · subst h3
      have := hr.first (by omega)
      exact_mod_cast this
    · exact hr.prev k h3 (by omega)
  · intro k h1 h2
    rcases Nat.eq_or_lt_of_le h1 with h3 | h3
    · subst h3; exact ha
    · exact hr.rejects k h3 (by omega)
  · rw [e]
    rcases Nat.eq_zero_or_pos n with h0 | h0
    · subst h0
      rcases hr.final with ⟨h1, _⟩ | ⟨h1, _, h3⟩
      · omega
      · exact Or.inr ⟨h1, fun _ => ha, by simpa using h3⟩
    · have e2 : m + 1 + n - 1 = m + n := by omega
      have e3 : m + 1 + n = m + n + 1 := by omega
      have hn : n ≠ 0 := by omega
      rcases hr.final with ⟨_, h2, h3⟩ | ⟨h1, h2, h3⟩
      · rw [e2] at h2 h3
        exact Or.inl ⟨by omega, h2, h3⟩
      · rw [e2] at h2
        rw [e2, e3, if_neg hn] at h3
        exact Or.inr ⟨h1, fun _ => h2 h0, by simpa using h3⟩

theorem armijo_loop_stop (self : Armijo) (init_val : ℚ) (init_x init_g direction : VectorXd)
    (m : Nat) (alpha : WithTop ℚ) (t : Trace)
    (hg : ¬ (m < self.opt_maxIt ∧ (self.opt_minstep : WithTop ℚ) < alpha)) :
    self.loop init_val init_x direction (dot init_g direction) m alpha t = (0, t) := by
  rw [Armijo.loop, if_neg hg]

theorem armijo_loop_accept (self : Armijo) (init_val : ℚ) (init_x init_g direction : VectorXd)
    (m : Nat) (alpha : WithTop ℚ) (t : Trace)
    (hg : m < self.opt_maxIt ∧ (self.opt_minstep : WithTop ℚ) < alpha)
    (ha : self.accepts init_val init_x init_g direction (self.candidate m)) :
    self.loop init_val init_x direction (dot init_g direction) m alpha t =
      (self.candidate m, t.enter.val (stepPoint init_x direction (self.candidate m))) := by
  simp only [Armijo.accepts, decrease, stepPoint, Armijo.candidate, stepLength] at ha
  rw [Armijo.loop, if_pos hg]
  simp only [if_pos ha]
  rfl

theorem armijo_loop_reject (self : Armijo) (init_val : ℚ) (init_x init_g direction : VectorXd)
    (m : Nat) (alpha : WithTop ℚ) (t : Trace)
    (hg : m < self.opt_maxIt ∧ (self.opt_minstep : WithTop ℚ) < alpha)
    (ha : ¬ self.accepts init_val init_x init_g direction (self.candidate m)) :
    self.loop init_val init_x direction (dot init_g direction) m alpha t =
      self.loop init_val init_x direction (dot init_g direction) (m + 1)
        (self.candidate m : ℚ) (t.enter.val (stepPoint init_x direction (self.candidate m))) := by
  simp only [Armijo.accepts, decrease, stepPoint, Armijo.candidate, stepLength] at ha
  rw [Armijo.loop, if_pos hg]
  simp only [if_neg ha]
  rfl

theorem wolfe_loop_stop (self : Wolfe) (init_val : ℚ) (init_x init_g direction : VectorXd)
    (m : Nat) (alpha : WithTop ℚ) (t : Trace)
    (hg : ¬ (m < self.opt_maxIt ∧ (self.opt_minstep : WithTop ℚ) < alpha)) :
    self.loop init_val init_x direction (dot init_g direction) m alpha t = (0, t) := by
  rw [Wolfe.loop, if_neg hg]

theorem wolfe_loop_accept (self : Wolfe) (init_val : ℚ) (init_x init_g direction : VectorXd)
    (m : Nat) (alpha : WithTop ℚ) (t : Trace)
    (hg : m < self.opt_maxIt ∧ (self.opt_minstep : WithTop ℚ) < alpha)
    (h1 : self.gate init_val init_x init_g direction (self.candidate m))
    (h2 : curvature self.compGrad self.opt_c2 init_x direction (dot init_g direction)
      (self.candidate m)) :
    self.loop init_val init_x direction (dot init_g direction) m alpha t =
      (self.candidate m, ((t.enter.val (stepPoint init_x direction (self.candidate m))).grad
        (stepPoint init_x direction (self.candidate m)))) := by
  simp only [Wolfe.gate, decrease, stepPoint, Wolfe.candidate, stepLength] at h1
  simp only [curvature, stepPoint, Wolfe.candidate, stepLength] at h2
  rw [Wolfe.loop, if_pos hg]
  simp only [if_pos h1, if_pos h2]
  rfl

theorem wolfe_loop_reject_curvature (self : Wolfe) (init_val : ℚ)
    (init_x init_g direction : VectorXd) (m : Nat) (alpha : WithTop ℚ) (t : Trace)
    (hg : m < self.opt_maxIt ∧ (self.opt_minstep : WithTop ℚ) < alpha)
    (h1 : self.gate init_val init_x init_g direction (self.candidate m))
    (h2 : ¬ curvature self.compGrad self.opt_c2 init_x direction (dot init_g direction)
      (self.candidate m)) :
    self.loop init_val init_x direction (dot init_g direction) m alpha t =
      self.loop init_val init_x direction (dot init_g direction) (m + 1)
        (self.candidate m : ℚ)
        ((t.enter.val (stepPoint init_x direction (self.candidate m))).grad
          (stepPoint init_x direction (self.candidate m))) := by
  simp only [Wolfe.gate, decrease, stepPoint, Wolfe.candidate, stepLength] at h1
  simp only [curvature, stepPoint, Wolfe.candidate, stepLength] at h2
  rw [Wolfe.loop, if_pos hg]
  simp only [if_pos h1, if_neg h2]
  rfl

theorem wolfe_loop_reject_gate (self : Wolfe) (init_val : ℚ)
    (init_x init_g direction : VectorXd) (m : Nat) (alpha : WithTop ℚ) (t : Trace)
    (hg : m < self.opt_maxIt ∧ (self.opt_minstep : WithTop ℚ) < alpha)
    (h1 : ¬ self.gate init_val init_x init_g direction (self.candidate m)) :
    self.loop init_val init_x direction (dot init_g direction) m alpha t =
      self.loop init_val init_x direction (dot init_g direction) (m + 1)
        (self.candidate m : ℚ)
        (t.enter.val (stepPoint init_x direction (self.candidate m))) := by
  simp only [Wolfe.gate, decrease, stepPoint, Wolfe.candidate, stepLength] at h1
  rw [Wolfe.loop, if_pos hg]
  simp only [if_neg h1]
  rfl

theorem armijo_loop_run (self : Armijo) (init_val : ℚ) (init_x init_g direction : VectorXd) :
    ∀ (d m : Nat) (alpha : WithTop ℚ) (t : Trace), self.opt_maxIt - m = d →
      ∃ n, Run self.opt_maxIt self.opt_minstep self.candidate
          (fun k => self.accepts init_val init_x init_g direction (self.candidate k)) m alpha
          (self.loop init_val init_x direction (dot init_g direction) m alpha t).1 n ∧
        (self.loop init_val init_x direction (dot init_g direction) m alpha t).2 =
          ⟨t.iters + n,
            t.valCalls ++ (List.range' m n).map
              (fun k => stepPoint init_x direction (self.candidate k)),
            t.gradCalls⟩ := by
  intro d
  induction d with
  | zero =>
    intro m alpha t hd
    have hg : ¬ (m < self.opt_maxIt ∧ (self.opt_minstep : WithTop ℚ) < alpha) := by
      intro h; omega
    rw [armijo_loop_stop self init_val init_x init_g direction m alpha t hg]
    exact ⟨0, Run.stop hg, by simp⟩
  | succ d ih =>
    intro m alpha t hd
    by_cases hg : m < self.opt_maxIt ∧ (self.opt_minstep : WithTop ℚ) < alpha
    · by_cases ha : self.accepts init_val init_x init_g direction (self.candidate m)
      · rw [armijo_loop_accept self init_val init_x init_g direction m alpha t hg ha]
        exact ⟨1, Run.accept hg ha, by simp [Trace.enter, Trace.val]⟩
      · rw [armijo_loop_reject self init_val init_x init_g direction m alpha t hg ha]
        obtain ⟨n, hr, ht⟩ := ih (m + 1) (self.candidate m : ℚ)
          (t.enter.val (stepPoint init_x direction (self.candidate m))) (by omega)
        refine ⟨n + 1, Run.reject hg ha hr, ?_⟩
        rw [ht]
        simp [Trace.enter, Trace.val, List.range'_succ, Nat.add_assoc, Nat.add_comm 1 n]
    · rw [armijo_loop_stop self init_val init_x init_g direction m alpha t hg]
      exact ⟨0, Run.stop hg, by simp⟩

theorem wolfe_loop_run (self : Wolfe) (init_val : ℚ) (init_x init_g direction : VectorXd) :
    ∀ (d m : Nat) (alpha : WithTop ℚ) (t : Trace), self.opt_maxIt - m = d →
      ∃ n, Run self.opt_maxIt self.opt_minstep self.candidate
          (fun k => self.accepts init_val init_x init_g direction (self.candidate k)) m alpha
          (self.loop init_val init_x direction (dot init_g direction) m alpha t).1 n ∧
        (self.loop init_val init_x direction (dot init_g direction) m alpha t).2 =
          ⟨t.iters + n,
            t.valCalls ++ (List.range' m n).map
              (fun k => stepPoint init_x direction (self.candidate k)),
            t.gradCalls ++ ((List.range' m n).filter
              (fun k => decide (self.gate init_val init_x init_g direction
                (self.candidate k)))).map
              (fun k => stepPoint init_x direction (self.candidate k))⟩ := by
  intro d
  induction d with
  | zero =>
    intro m alpha t hd
    have hg : ¬ (m < self.opt_maxIt ∧ (self.opt_minstep : WithTop ℚ) < alpha) := by
      intro h; omega
    rw [wolfe_loop_stop self init_val init_x init_g direction m alpha t hg]
    exact ⟨0, Run.stop hg, by simp⟩
  | succ d ih =>
    intro m alpha t hd
    by_cases hg : m < self.opt_maxIt ∧ (self.opt_minstep : WithTop ℚ) < alpha
    · by_cases h1 : self.gate init_val init_x init_g direction (self.candidate m)
      · by_cases h2 : curvature self.compGrad self.opt_c2 init_x direction
            (dot init_g direction) (self.candidate m)
        · rw [wolfe_loop_accept self init_val init_x init_g direction m alpha t hg h1 h2]
          exact ⟨1, Run.accept hg ⟨h1, h2⟩, by simp [Trace.enter, Trace.val, Trace.grad, h1]⟩
        · rw [wolfe_loop_reject_curvature self init_val init_x init_g direction m alpha t hg h1 h2]
          obtain ⟨n, hr, ht⟩ := ih (m + 1) (self.candidate m : ℚ)
            ((t.enter.val (stepPoint init_x direction (self.candidate m))).grad
              (stepPoint init_x direction (self.candidate m))) (by omega)
          refine ⟨n + 1, Run.reject hg (fun h => h2 h.2) hr, ?_⟩
          rw [ht]
          simp [Trace.enter, Trace.val, Trace.grad, List.range'_succ, Nat.add_assoc,
            Nat.add_comm 1 n, List.filter_cons, h1]
      · rw [wolfe_loop_reject_gate self init_val init_x init_g direction m alpha t hg h1]
        obtain ⟨n, hr, ht⟩ := ih (m + 1) (self.candidate m : ℚ)
          (t.enter.val (stepPoint init_x direction (self.candidate m))) (by omega)
        refine ⟨n + 1, Run.reject hg (fun h => h1 h.1) hr, ?_⟩
        rw [ht]
        simp [Trace.enter, Trace.val, List.range'_succ, Nat.add_assoc,
          Nat.add_comm 1 n, List.filter_cons, h1]
    · rw [wolfe_loop_stop self init_val init_x init_g direction m alpha t hg]
      exact ⟨0, Run.stop hg, by simp⟩

/-- A call of `Armijo::search` with `opt_s > 0` returns normally, and is a run of the
loop from counter `0` and the infinite sentinel. -/
theorem armijo_search_run (self : Armijo) (init_val : ℚ) (init_x init_g direction : VectorXd)
    (hs : 0 < self.opt_s) :
    ∃ n r, (self.search init_val init_x init_g direction).ret = .ok r ∧
      Run self.opt_maxIt self.opt_minstep self.candidate
        (fun k => self.accepts init_val init_x init_g direction (self.candidate k)) 0 ⊤ r n ∧
      (self.search init_val init_x init_g direction).trace =
        ⟨n, (List.range n).map (fun k => stepPoint init_x direction (self.candidate k)), []⟩ := by
  obtain ⟨n, hr, ht⟩ := armijo_loop_run self init_val init_x init_g direction _ 0 ⊤ Trace.empty rfl
  refine ⟨n, _, ?_, hr, ?_⟩
  · simp [Armijo.search, not_le.mpr hs]
  · simp only [Armijo.search, if_neg (not_le.mpr hs)]
    rw [ht]
    simp [Trace.empty, List.range_eq_range']

/-- A call of `Wolfe::search` with `opt_s > 0` returns normally, and is a run of the
loop from counter `0` and the infinite sentinel. -/
theorem wolfe_search_run (self : Wolfe) (init_val : ℚ) (init_x init_g direction : VectorXd)
    (hs : 0 < self.opt_s) :
    ∃ n r, (self.search init_val init_x init_g direction).ret = .ok r ∧
      Run self.opt_maxIt self.opt_minstep self.candidate
        (fun k => self.accepts init_val init_x init_g direction (self.candidate k)) 0 ⊤ r n ∧
      (self.search init_val init_x init_g direction).trace =
        ⟨n, (List.range n).map (fun k => stepPoint init_x direction (self.candidate k)),
          ((List.range n).filter
            (fun k => decide (self.gate init_val init_x init_g direction
              (self.candidate k)))).map
            (fun k => stepPoint init_x direction (self.candidate k))⟩ := by
  obtain ⟨n, hr, ht⟩ := wolfe_loop_run self init_val init_x init_g direction _ 0 ⊤ Trace.empty rfl
  refine ⟨n, _, ?_, hr, ?_⟩
  · simp [Wolfe.search, not_le.mpr hs]
  · simp only [Wolfe.search, if_neg (not_le.mpr hs)]
    rw [ht]
    simp [Trace.empty, List.range_eq_range']

/-! ## Soundness of a returned step -/

theorem armijo_search_nonzero (self : Armijo) (init_val : ℚ)
    (init_x init_g direction : VectorXd) (alpha : ℚ) (hs : 0 < self.opt_s)
    (hret : (self.search init_val init_x init_g direction).ret = .ok alpha) (hne : alpha ≠ 0) :
    ∃ m, m < self.opt_maxIt ∧ alpha = self.candidate m ∧
      self.accepts init_val init_x init_g direction (self.candidate m) ∧
      ∀ k, k < m → ¬ self.accepts init_val init_x init_g direction (self.candidate k) := by
  obtain ⟨n, r, hr, hrun, -⟩ := armijo_search_run self init_val init_x init_g direction hs
  rw [hr] at hret
  cases hret
  rcases hrun.final with ⟨h0, h1, h2⟩ | ⟨h0, -, -⟩
  · simp only [Nat.zero_add] at h1 h2
    refine ⟨n - 1, ?_, h2, h1, fun k hk => hrun.rejects k (Nat.zero_le k) (by omega)⟩
    have := hrun.bound h0
    omega
  · exact absurd h0 hne

theorem wolfe_search_nonzero (self : Wolfe) (init_val : ℚ)
    (init_x init_g direction : VectorXd) (alpha : ℚ) (hs : 0 < self.opt_s)
    (hret : (self.search init_val init_x init_g direction).ret = .ok alpha) (hne : alpha ≠ 0) :
    ∃ m, m < self.opt_maxIt ∧ alpha = self.candidate m ∧
      self.accepts init_val init_x init_g direction (self.candidate m) ∧
      ∀ k, k < m → ¬ self.accepts init_val init_x init_g direction (self.candidate k) := by
  obtain ⟨n, r, hr, hrun, -⟩ := wolfe_search_run self init_val init_x init_g direction hs
  rw [hr] at hret
  cases hret
  rcases hrun.final with ⟨h0, h1, h2⟩ | ⟨h0, -, -⟩
  · simp only [Nat.zero_add] at h1 h2
    refine ⟨n - 1, ?_, h2, h1, fun k hk => hrun.rejects k (Nat.zero_le k) (by omega)⟩
    have := hrun.bound h0
    omega
  · exact absurd h0 hne

/-- With the default options, `Wolfe::search` on `f(x) = x²` from `2` along `-1`
accepts the first candidate. -/
theorem wolfe_search_quadratic :
    ((Wolfe.new quadratic quadraticGrad).search 4 [2] [4] [-1]).ret = .ok 1 := by
  have hg : 0 < (Wolfe.new quadratic quadraticGrad).opt_maxIt ∧
      (((Wolfe.new quadratic quadraticGrad).opt_minstep : ℚ) : WithTop ℚ) < ⊤ :=
    ⟨by norm_num [Wolfe.new], WithTop.coe_lt_top _⟩
  have h1 : (Wolfe.new quadratic quadraticGrad).gate 4 [2] [4] [-1]
      ((Wolfe.new quadratic quadraticGrad).candidate 0) := by
    norm_num [Wolfe.gate, decrease, stepPoint, Wolfe.candidate, stepLength, Wolfe.new,
      quadratic, dot, vadd, smul]
  have h2 : curvature (Wolfe.new quadratic quadraticGrad).compGrad
      (Wolfe.new quadratic quadraticGrad).opt_c2 [2] [-1] (dot [4] [-1])
      ((Wolfe.new quadratic quadraticGrad).candidate 0) := by
    norm_num [curvature, stepPoint, Wolfe.candidate, stepLength, Wolfe.new,
      quadraticGrad, dot, vadd, smul]
  simp only [Wolfe.search]
  rw [if_neg (by norm_num [Wolfe.new])]
  rw [wolfe_loop_accept (Wolfe.new quadratic quadraticGrad) 4 [2] [4] [-1] 0 ⊤ Trace.empty hg h1 h2]
  norm_num [Wolfe.candidate, stepLength, Wolfe.new]

/-- C2. Wolfe soundness: when `Wolfe::search` is called with `opt_s > 0` and returns a
nonzero step length `alpha`, then at `x = init_x + alpha*direction` both
`init_val - f(x) >= -opt_c1*alpha*(init_g·direction)` and
`grad(x)·direction >= opt_c2*(init_g·direction)` hold. -/
theorem wolfe_search_sound (self : Wolfe) (init_val : ℚ)
    (init_x init_g direction : VectorXd) (alpha : ℚ) (hs : 0 < self.opt_s)
    (hret : (self.search init_val init_x init_g direction).ret = .ok alpha) (hne : alpha ≠ 0) :
    init_val - self.compVal (vadd init_x (smul alpha direction)) ≥
        -self.opt_c1 * alpha * dot init_g direction ∧
      dot (self.compGrad (vadd init_x (smul alpha direction))) direction ≥
        self.opt_c2 * dot init_g direction := by
  obtain ⟨m, -, hm, ha, -⟩ :=
    wolfe_search_nonzero self init_val init_x init_g direction alpha hs hret hne
  rw [← hm] at ha
  simpa only [Wolfe.accepts, Wolfe.gate, decrease, curvature, stepPoint] using ha

/-- C2 at `f(x) = x²`, `grad(x) = 2x`, `init_val = 4`, `init_x = [2]`, `init_g = [4]`,
`direction = [-1]` and the default options: the call returns `1`, and both
inequalities hold there. -/
theorem wolfe_search_sound_witness :
    ((Wolfe.new quadratic quadraticGrad).search 4 [2] [4] [-1]).ret = .ok 1 ∧
      (4 - quadratic (vadd [2] (smul 1 [-1])) ≥ -(1 / 100000) * 1 * dot [4] [-1] ∧
        dot (quadraticGrad (vadd [2] (smul 1 [-1]))) [-1] ≥ 9 / 10 * dot [4] [-1]) :=
  ⟨wolfe_search_quadratic,
    wolfe_search_sound (Wolfe.new quadratic quadraticGrad) 4 [2] [4] [-1] 1
      (by norm_num [Wolfe.new]) wolfe_search_quadratic (by norm_num)⟩

/-! ## The candidates -/

theorem stepLength_pos {opt_beta opt_s : ℚ} (hs : 0 < opt_s) (hb : 0 < opt_beta) (m : Nat) :
    0 < stepLength opt_beta opt_s m :=
  mul_pos (pow_pos hb m) hs

theorem stepLength_anti {opt_beta opt_s : ℚ} (hs : 0 < opt_s) (hb : 0 < opt_beta)
    (hb1 : opt_beta < 1) {k m : Nat} (hkm : k ≤ m) :
    stepLength opt_beta opt_s m ≤ stepLength opt_beta opt_s k :=
  mul_le_mul_of_nonneg_right (pow_le_pow_of_le_one hb.le hb1.le hkm) hs.le

/-- C3. `Armijo::search` returns the first acceptable candidate: when it is called with
`opt_s > 0` and returns a nonzero `alpha`, there is an index `m < opt_maxIt` with
`alpha = opt_beta^m * opt_s` such that the acceptance test holds at `opt_beta^m * opt_s`
and fails at `opt_beta^k * opt_s` for every `k < m`; and when `opt_beta` is in `(0,1)`,
every acceptable step of the geometric sequence is at most `alpha`. -/
theorem armijo_search_first_acceptable (self : Armijo) (init_val : ℚ)
    (init_x init_g direction : VectorXd) (alpha : ℚ) (hs : 0 < self.opt_s)
    (hret : (self.search init_val init_x init_g direction).ret = .ok alpha) (hne : alpha ≠ 0) :
    ∃ m, m < self.opt_maxIt ∧ alpha = self.opt_beta ^ m * self.opt_s ∧
      self.accepts init_val init_x init_g direction (self.opt_beta ^ m * self.opt_s) ∧
      (∀ k, k < m →
        ¬ self.accepts init_val init_x init_g direction (self.opt_beta ^ k * self.opt_s)) ∧
      (0 < self.opt_beta → self.opt_beta < 1 → ∀ k,
        self.accepts init_val init_x init_g direction (self.opt_beta ^ k * self.opt_s) →
          self.opt_beta ^ k * self.opt_s ≤ alpha) := by
  obtain ⟨m, hm, ha, hacc, hrej⟩ :=
    armijo_search_nonzero self init_val init_x init_g direction alpha hs hret hne
  refine ⟨m, hm, ha, hacc, hrej, fun hb hb1 k hk => ?_⟩
  rcases Nat.lt_or_ge k m with h | h
  · exact absurd hk (hrej k h)
  · rw [ha]
    exact stepLength_anti hs hb hb1 h

/-! ## The precondition -/

/-- C4. Both searches throw `invalid_argument` if and only if `opt_s <= 0`, whatever the
other fields and the inputs are, and then the loop is not entered: the value function
and the gradient function are not called. -/
theorem search_invalid_argument (a : Armijo) (w : Wolfe) (init_val : ℚ)
    (init_x init_g direction : VectorXd) :
    (((∃ what, (a.search init_val init_x init_g direction).ret =
          .error (.invalid_argument what)) ↔ a.opt_s ≤ 0) ∧
      (a.opt_s ≤ 0 →
        (a.search init_val init_x init_g direction).trace.iters = 0 ∧
        (a.search init_val init_x init_g direction).trace.valCalls = [] ∧
        (a.search init_val init_x init_g direction).trace.gradCalls = [])) ∧
    (((∃ what, (w.search init_val init_x init_g direction).ret =
          .error (.invalid_argument what)) ↔ w.opt_s ≤ 0) ∧
      (w.opt_s ≤ 0 →
        (w.search init_val init_x init_g direction).trace.iters = 0 ∧
        (w.search init_val init_x init_g direction).trace.valCalls = [] ∧
        (w.search init_val init_x init_g direction).trace.gradCalls = [])) := by
  refine ⟨⟨⟨?_, ?_⟩, ?_⟩, ⟨⟨?_, ?_⟩, ?_⟩⟩
  · rintro ⟨what, h⟩
    by_contra hs
    simp [Armijo.search, hs] at h
  · intro hs
    exact ⟨"opt_s must be > 0", by simp only [Armijo.search, if_pos hs]⟩
  · intro hs
    simp [Armijo.search, hs, Trace.empty]
  · rintro ⟨what, h⟩
    by_contra hs
    simp [Wolfe.search, hs] at h
  · intro hs
    exact ⟨"opt_s must be > 0", by simp only [Wolfe.search, if_pos hs]⟩
  · intro hs
    simp [Wolfe.search, hs, Trace.empty]

/-- C4 at `opt_s = 0` (Armijo) and `opt_s = -1` (Wolfe), the other options at their
defaults: both calls throw and evaluate nothing. -/
theorem search_invalid_argument_witness :
    ((∃ what, ((⟨quadratic, 0, 1 / 10, 1 / 2, 1 / 100000, 10000⟩ : Armijo).search
        4 [2] [4] [-1]).ret = .error (.invalid_argument what)) ∧
      ((⟨quadratic, 0, 1 / 10, 1 / 2, 1 / 100000, 10000⟩ : Armijo).search
        4 [2] [4] [-1]).trace.valCalls = []) ∧
    ((∃ what, ((⟨quadratic, quadraticGrad, 1 / 10, -1, 1 / 2, 1 / 100000, 9 / 10, 10000⟩ :
        Wolfe).search 4 [2] [4] [-1]).ret = .error (.invalid_argument what)) ∧
      ((⟨quadratic, quadraticGrad, 1 / 10, -1, 1 / 2, 1 / 100000, 9 / 10, 10000⟩ :
        Wolfe).search 4 [2] [4] [-1]).trace.gradCalls = []) :=
  have h := search_invalid_argument ⟨quadratic, 0, 1 / 10, 1 / 2, 1 / 100000, 10000⟩
    ⟨quadratic, quadraticGrad, 1 / 10, -1, 1 / 2, 1 / 100000, 9 / 10, 10000⟩ 4 [2] [4] [-1]
  ⟨⟨h.1.1.mpr (by norm_num), (h.1.2 (by norm_num)).2.1⟩,
    ⟨h.2.1.mpr (by norm_num), (h.2.2 (by norm_num)).2.2⟩⟩

/-! ## A returned zero -/

theorem Run.iters_le {opt_maxIt : Nat} {opt_minstep : ℚ} {cand : Nat → ℚ} {acc : Nat → Prop}
    {m : Nat} {alpha : WithTop ℚ} {r : ℚ} {n : Nat}
    (h : Run opt_maxIt opt_minstep cand acc m alpha r n) : n ≤ opt_maxIt := by
  rcases Nat.eq_zero_or_pos n with h0 | h0
  · omega
  · have := h.bound h0; omega

theorem Run.zero_iff {opt_maxIt : Nat} {opt_minstep opt_beta opt_s : ℚ} {acc : Nat → Prop}
    {r : ℚ} {n : Nat} (hs : 0 < opt_s) (hb : 0 < opt_beta) (hb1 : opt_beta < 1)
    (h : Run opt_maxIt opt_minstep (stepLength opt_beta opt_s) acc 0 ⊤ r n) :
    r = 0 ↔ ∀ m, reached opt_maxIt opt_minstep opt_beta opt_s m → ¬ acc m := by
  constructor
  · intro hr m hm
    rcases h.final with ⟨-, -, h2⟩ | ⟨-, hlast, hguard⟩
    · have := stepLength_pos hs hb (0 + n - 1)
      rw [← h2, hr] at this
      exact absurd this (lt_irrefl 0)
    · have hlt : m < n := by
        by_contra hge
        have hge : n ≤ m := Nat.le_of_not_lt hge
        rcases Nat.eq_zero_or_pos n with h0 | h0
        · subst h0
          exact hguard ⟨by have := hm.1; omega, by simp⟩
        · have hn : n ≠ 0 := by omega
          rw [if_neg hn] at hguard
          apply hguard
          refine ⟨by have := hm.1; omega, ?_⟩
          rcases hm.2 with h1 | h1
          · omega
          · have := stepLength_anti hs hb hb1 (show 0 + n - 1 ≤ m - 1 by omega)
            exact_mod_cast lt_of_lt_of_le h1 this
      rcases Nat.lt_or_ge (m + 1) n with h1 | h1
      · exact h.rejects m (Nat.zero_le m) (by omega)
      · have e : 0 + n - 1 = m := by omega
        rw [e] at hlast
        exact hlast (by omega)
  · intro hall
    rcases h.final with ⟨h0, h1, -⟩ | ⟨hr, -, -⟩
    · refine absurd h1 (hall _ ⟨by have := h.bound h0; omega, ?_⟩)
      rcases Nat.lt_or_ge 1 n with h2 | h2
      · right
        have := h.prev (n - 2) (Nat.zero_le _) (by omega)
        have e : 0 + n - 1 - 1 = n - 2 := by omega
        rw [e]
        exact this
      · left; omega
    · exact hr

theorem armijo_search_zero_iff (self : Armijo) (init_val : ℚ)
    (init_x init_g direction : VectorXd) (hs : 0 < self.opt_s) (hb : 0 < self.opt_beta)
    (hb1 : self.opt_beta < 1) :
    (self.search init_val init_x init_g direction).ret = .ok 0 ↔
      ∀ m, reached self.opt_maxIt self.opt_minstep self.opt_beta self.opt_s m →
        ¬ self.accepts init_val init_x init_g direction (self.opt_beta ^ m * self.opt_s) := by
  obtain ⟨n, r, hr, hrun, -⟩ := armijo_search_run self init_val init_x init_g direction hs
  have key := Run.zero_iff hs hb hb1 hrun
  rw [hr]
  constructor
  · intro h; cases h; exact key.mp rfl
  · intro h; rw [key.mpr h]

theorem wolfe_search_zero_iff (self : Wolfe) (init_val : ℚ)
    (init_x init_g direction : VectorXd) (hs : 0 < self.opt_s) (hb : 0 < self.opt_beta)
    (hb1 : self.opt_beta < 1) :
    (self.search init_val init_x init_g direction).ret = .ok 0 ↔
      ∀ m, reached self.opt_maxIt self.opt_minstep self.opt_beta self.opt_s m →
        ¬ self.accepts init_val init_x init_g direction (self.opt_beta ^ m * self.opt_s) := by
  obtain ⟨n, r, hr, hrun, -⟩ := wolfe_search_run self init_val init_x init_g direction hs
  have key := Run.zero_iff hs hb hb1 hrun
  rw [hr]
  constructor
  · intro h; cases h; exact key.mp rfl
  · intro h; rw [key.mpr h]

/-! ## Termination and the number of evaluations -/

/-- C6. Termination within the iteration cap: a call of either search with `opt_s > 0`
returns a step length, having executed the loop body at most `opt_maxIt` times; the
value function is evaluated once per executed body, so at most `opt_maxIt` times, and
the gradient function of Wolfe at most as often.  No assumption is made on the
direction, which need not be a descent direction, nor on `opt_beta`. -/
theorem search_terminates (a : Armijo) (w : Wolfe) (init_val : ℚ)
    (init_x init_g direction : VectorXd) (has : 0 < a.opt_s) (hws : 0 < w.opt_s) :
    ((∃ r, (a.search init_val init_x init_g direction).ret = .ok r) ∧
      (a.search init_val init_x init_g direction).trace.iters ≤ a.opt_maxIt ∧
      (a.search init_val init_x init_g direction).trace.valCalls.length ≤ a.opt_maxIt ∧
      (a.search init_val init_x init_g direction).trace.valCalls.length =
        (a.search init_val init_x init_g direction).trace.iters) ∧
    ((∃ r, (w.search init_val init_x init_g direction).ret = .ok r) ∧
      (w.search init_val init_x init_g direction).trace.iters ≤ w.opt_maxIt ∧
      (w.search init_val init_x init_g direction).trace.valCalls.length ≤ w.opt_maxIt ∧
      (w.search init_val init_x init_g direction).trace.valCalls.length =
        (w.search init_val init_x init_g direction).trace.iters ∧
      (w.search init_val init_x init_g direction).trace.gradCalls.length ≤ w.opt_maxIt) := by
  constructor
  · obtain ⟨n, r, hr, hrun, ht⟩ := armijo_search_run a init_val init_x init_g direction has
    have hn := hrun.iters_le
    rw [ht]
    exact ⟨⟨r, hr⟩, hn, by simpa using hn, by simp⟩
  · obtain ⟨n, r, hr, hrun, ht⟩ := wolfe_search_run w init_val init_x init_g direction hws
    have hn := hrun.iters_le
    rw [ht]
    refine ⟨⟨r, hr⟩, hn, by simpa using hn, by simp, ?_⟩
    simp only [List.length_map]
    exact le_trans (List.length_filter_le _ _) (by simpa using hn)

/-- C6 at the objective `f(x) = x₀` along `direction = [1]`, which is not a descent
direction (`init_g·direction = 1`), with the default options. -/
theorem search_terminates_witness :
    ((Armijo.new rising).search 0 [0] [1] [1]).trace.valCalls.length ≤ 10000 ∧
      ((Wolfe.new rising (fun _ => [1])).search 0 [0] [1] [1]).trace.valCalls.length ≤ 10000 :=
  have h := search_terminates (Armijo.new rising) (Wolfe.new rising (fun _ => [1])) 0 [0] [1] [1]
    (by norm_num [Armijo.new]) (by norm_num [Wolfe.new])
  ⟨h.1.2.2.1, h.2.2.2.1⟩

/-! ## The step length and `opt_minstep` -/

theorem armijo_tilted_guard (m : Nat) (hm : m < 4) :
    m + 1 < (Armijo.new tilted).opt_maxIt ∧
      (((Armijo.new tilted).opt_minstep : ℚ) : WithTop ℚ) <
        (((Armijo.new tilted).candidate m : ℚ) : WithTop ℚ) := by
  refine ⟨by simp only [Armijo.new]; omega, WithTop.coe_lt_coe.mpr ?_⟩
  interval_cases m <;> norm_num [Armijo.candidate, stepLength, Armijo.new]

theorem armijo_tilted_reject (m : Nat) (hm : m < 4) :
    ¬ (Armijo.new tilted).accepts 0 [0] [-(1 / 10)] [1] ((Armijo.new tilted).candidate m) := by
  interval_cases m <;>
    norm_num [Armijo.accepts, decrease, stepPoint, Armijo.candidate, stepLength, Armijo.new,
      tilted, dot, vadd, smul]

theorem armijo_tilted_accept :
    (Armijo.new tilted).accepts 0 [0] [-(1 / 10)] [1] ((Armijo.new tilted).candidate 4) := by
  norm_num [Armijo.accepts, decrease, stepPoint, Armijo.candidate, stepLength, Armijo.new,
    tilted, dot, vadd, smul]

/-- With the default options, `Armijo::search` on `tilted` from `0` along `1` rejects
`1, 1/2, 1/4, 1/8` and accepts `1/16`. -/
theorem armijo_search_tilted :
    ((Armijo.new tilted).search 0 [0] [-(1 / 10)] [1]).ret = .ok (1 / 16) := by
  have hg0 : 0 < (Armijo.new tilted).opt_maxIt ∧
      (((Armijo.new tilted).opt_minstep : ℚ) : WithTop ℚ) < ⊤ :=
    ⟨by norm_num [Armijo.new], WithTop.coe_lt_top _⟩
  simp only [Armijo.search]
  rw [if_neg (by norm_num [Armijo.new])]
  rw [armijo_loop_reject _ 0 [0] [-(1 / 10)] [1] 0 ⊤ _ hg0 (armijo_tilted_reject 0 (by omega)),
    armijo_loop_reject _ 0 [0] [-(1 / 10)] [1] 1 _ _ (armijo_tilted_guard 0 (by omega))
      (armijo_tilted_reject 1 (by omega)),
    armijo_loop_reject _ 0 [0] [-(1 / 10)] [1] 2 _ _ (armijo_tilted_guard 1 (by omega))
      (armijo_tilted_reject 2 (by omega)),
    armijo_loop_reject _ 0 [0] [-(1 / 10)] [1] 3 _ _ (armijo_tilted_guard 2 (by omega))
      (armijo_tilted_reject 3 (by omega)),
    armijo_loop_accept _ 0 [0] [-(1 / 10)] [1] 4 _ _ (armijo_tilted_guard 3 (by omega))
      armijo_tilted_accept]
  norm_num [Armijo.candidate, stepLength, Armijo.new]

/-- C3 at `f(x) = x² - x/10`, `init_val = 0`, `init_x = [0]`, `init_g = [-1/10]`,
`direction = [1]` and the default options, where the call returns `1/16`: the index is
`m = 4`, the acceptance test holds at `(1/2)^4 * 1` and fails at the four candidates
`1, 1/2, 1/4, 1/8` before it, and no acceptable step of the sequence exceeds `1/16`. -/
theorem armijo_search_first_acceptable_witness :
    ((Armijo.new tilted).search 0 [0] [-(1 / 10)] [1]).ret = .ok (1 / 16) ∧
      (1 / 16 : ℚ) = (1 / 2) ^ 4 * 1 ∧
      (Armijo.new tilted).accepts 0 [0] [-(1 / 10)] [1] ((1 / 2) ^ 4 * 1) ∧
      (∀ k, k < 4 → ¬ (Armijo.new tilted).accepts 0 [0] [-(1 / 10)] [1] ((1 / 2) ^ k * 1)) ∧
      (∀ k, (Armijo.new tilted).accepts 0 [0] [-(1 / 10)] [1] ((1 / 2) ^ k * 1) →
        (1 / 2 : ℚ) ^ k * 1 ≤ 1 / 16) := by
  obtain ⟨m, -, hm, hacc, hrej, hmax⟩ := armijo_search_first_acceptable (Armijo.new tilted) 0
    [0] [-(1 / 10)] [1] (1 / 16) (by norm_num [Armijo.new]) armijo_search_tilted (by norm_num)
  have h4 : m = 4 := by
    simp only [Armijo.new] at hm
    rcases Nat.lt_or_ge m 4 with h | h
    · interval_cases m <;> norm_num at hm
    · rcases Nat.eq_or_lt_of_le h with h | h
      · exact h.symm
      · have h5 := stepLength_anti (show (0 : ℚ) < 1 by norm_num)
          (show (0 : ℚ) < 1 / 2 by norm_num) (show (1 / 2 : ℚ) < 1 by norm_num)
          (show 5 ≤ m from h)
        simp only [stepLength] at h5
        rw [← hm] at h5
        norm_num at h5
  subst h4
  exact ⟨armijo_search_tilted, by norm_num, hacc, hrej,
    hmax (by norm_num [Armijo.new]) (by norm_num [Armijo.new])⟩

theorem wolfe_tilted_guard (m : Nat) (hm : m < 4) :
    m + 1 < (Wolfe.new tilted tiltedGrad).opt_maxIt ∧
      (((Wolfe.new tilted tiltedGrad).opt_minstep : ℚ) : WithTop ℚ) <
        (((Wolfe.new tilted tiltedGrad).candidate m : ℚ) : WithTop ℚ) := by
  refine ⟨by simp only [Wolfe.new]; omega, WithTop.coe_lt_coe.mpr ?_⟩
  interval_cases m <;> norm_num [Wolfe.candidate, stepLength, Wolfe.new]

theorem wolfe_tilted_reject (m : Nat) (hm : m < 4) :
    ¬ (Wolfe.new tilted tiltedGrad).gate 0 [0] [-(1 / 10)] [1]
      ((Wolfe.new tilted tiltedGrad).candidate m) := by
  interval_cases m <;>
    norm_num [Wolfe.gate, decrease, stepPoint, Wolfe.candidate, stepLength, Wolfe.new,
      tilted, dot, vadd, smul]

theorem wolfe_tilted_accept :
    (Wolfe.new tilted tiltedGrad).gate 0 [0] [-(1 / 10)] [1]
        ((Wolfe.new tilted tiltedGrad).candidate 4) ∧
      curvature (Wolfe.new tilted tiltedGrad).compGrad (Wolfe.new tilted tiltedGrad).opt_c2
        [0] [1] (dot [-(1 / 10)] [1]) ((Wolfe.new tilted tiltedGrad).candidate 4) := by
  constructor
  · norm_num [Wolfe.gate, decrease, stepPoint, Wolfe.candidate, stepLength, Wolfe.new,
      tilted, dot, vadd, smul]
  · norm_num [curvature, stepPoint, Wolfe.candidate, stepLength, Wolfe.new,
      tiltedGrad, dot, vadd, smul]

/-- With the default options, `Wolfe::search` on `tilted` from `0` along `1` rejects
`1, 1/2, 1/4, 1/8` at the first gate and accepts `1/16`. -/
theorem wolfe_search_tilted :
    ((Wolfe.new tilted tiltedGrad).search 0 [0] [-(1 / 10)] [1]).ret = .ok (1 / 16) := by
  have hg0 : 0 < (Wolfe.new tilted tiltedGrad).opt_maxIt ∧
      (((Wolfe.new tilted tiltedGrad).opt_minstep : ℚ) : WithTop ℚ) < ⊤ :=
    ⟨by norm_num [Wolfe.new], WithTop.coe_lt_top _⟩
  simp only [Wolfe.search]
  rw [if_neg (by norm_num [Wolfe.new])]
  rw [wolfe_loop_reject_gate _ 0 [0] [-(1 / 10)] [1] 0 ⊤ _ hg0 (wolfe_tilted_reject 0 (by omega)),
    wolfe_loop_reject_gate _ 0 [0] [-(1 / 10)] [1] 1 _ _ (wolfe_tilted_guard 0 (by omega))
      (wolfe_tilted_reject 1 (by omega)),
    wolfe_loop_reject_gate _ 0 [0] [-(1 / 10)] [1] 2 _ _ (wolfe_tilted_guard 1 (by omega))
      (wolfe_tilted_reject 2 (by omega)),
    wolfe_loop_reject_gate _ 0 [0] [-(1 / 10)] [1] 3 _ _ (wolfe_tilted_guard 2 (by omega))
      (wolfe_tilted_reject 3 (by omega)),
    wolfe_loop_accept _ 0 [0] [-(1 / 10)] [1] 4 _ _ (wolfe_tilted_guard 3 (by omega))
      wolfe_tilted_accept.1 wolfe_tilted_accept.2]
  norm_num [Wolfe.candidate, stepLength, Wolfe.new]

/-- C7, refuted as stated: with the default options (`opt_s = 1`, `opt_beta = 1/2`,
`opt_minstep = 1/10`), on `f(x) = x² - x/10` from `0` along `1`, both searches return
the nonzero step length `1/16`, which is below `opt_minstep`. -/
theorem minstep_floor_counterexample :
    (0 < (Armijo.new tilted).opt_s ∧ 0 < (Armijo.new tilted).opt_beta ∧
      (Armijo.new tilted).opt_beta < 1 ∧
      ((Armijo.new tilted).search 0 [0] [-(1 / 10)] [1]).ret = .ok (1 / 16) ∧
      (1 / 16 : ℚ) ≠ 0 ∧ ¬ ((1 / 16 : ℚ) ≥ (Armijo.new tilted).opt_minstep)) ∧
    (0 < (Wolfe.new tilted tiltedGrad).opt_s ∧ 0 < (Wolfe.new tilted tiltedGrad).opt_beta ∧
      (Wolfe.new tilted tiltedGrad).opt_beta < 1 ∧
      ((Wolfe.new tilted tiltedGrad).search 0 [0] [-(1 / 10)] [1]).ret = .ok (1 / 16) ∧
      (1 / 16 : ℚ) ≠ 0 ∧ ¬ ((1 / 16 : ℚ) ≥ (Wolfe.new tilted tiltedGrad).opt_minstep)) :=
  ⟨⟨by norm_num [Armijo.new], by norm_num [Armijo.new], by norm_num [Armijo.new],
      armijo_search_tilted, by norm_num, by norm_num [Armijo.new]⟩,
    ⟨by norm_num [Wolfe.new], by norm_num [Wolfe.new], by norm_num [Wolfe.new],
      wolfe_search_tilted, by norm_num, by norm_num [Wolfe.new]⟩⟩

/-! ## The gradient is evaluated behind the first gate only -/

theorem wolfe_search_trace (self : Wolfe) (init_val : ℚ) (init_x init_g direction : VectorXd) :
    (self.search init_val init_x init_g direction).trace =
      ⟨(self.search init_val init_x init_g direction).trace.iters,
        (List.range (self.search init_val init_x init_g direction).trace.iters).map
          (fun k => stepPoint init_x direction (self.candidate k)),
        ((List.range (self.search init_val init_x init_g direction).trace.iters).filter
          (fun k => decide (self.gate init_val init_x init_g direction
            (self.candidate k)))).map
          (fun k => stepPoint init_x direction (self.candidate k))⟩ := by
  by_cases hs : 0 < self.opt_s
  · obtain ⟨n, r, -, -, ht⟩ := wolfe_search_run self init_val init_x init_g direction hs
    rw [ht]
  · simp [Wolfe.search, not_lt.mp hs, Trace.empty]

/-- C8. Wolfe short-circuit: in every call of `Wolfe::search`, the value function is
evaluated exactly once per executed iteration, at the candidate point of that
iteration, and the gradient function is evaluated exactly at the candidate points of
the executed iterations whose first gate
`init_val - f(x) >= -opt_c1*alpha*(init_g·direction)` holds, in order; so the number of
gradient evaluations is the number of executed iterations in which the first gate
passed. -/
theorem wolfe_gradient_short_circuit (w : Wolfe) (init_val : ℚ)
    (init_x init_g direction : VectorXd) :
    (w.search init_val init_x init_g direction).trace.valCalls =
        (List.range (w.search init_val init_x init_g direction).trace.iters).map
          (fun m => vadd init_x (smul (w.opt_beta ^ m * w.opt_s) direction)) ∧
      (w.search init_val init_x init_g direction).trace.gradCalls =
        ((List.range (w.search init_val init_x init_g direction).trace.iters).filter
          (fun m => decide (init_val -
              w.compVal (vadd init_x (smul (w.opt_beta ^ m * w.opt_s) direction)) ≥
            -w.opt_c1 * (w.opt_beta ^ m * w.opt_s) * dot init_g direction))).map
          (fun m => vadd init_x (smul (w.opt_beta ^ m * w.opt_s) direction)) ∧
      (w.search init_val init_x init_g direction).trace.valCalls.length =
        (w.search init_val init_x init_g direction).trace.iters ∧
      (w.search init_val init_x init_g direction).trace.gradCalls.length =
        ((List.range (w.search init_val init_x init_g direction).trace.iters).filter
          (fun m => decide (init_val -
              w.compVal (vadd init_x (smul (w.opt_beta ^ m * w.opt_s) direction)) ≥
            -w.opt_c1 * (w.opt_beta ^ m * w.opt_s) * dot init_g direction))).length := by
  have h := wolfe_search_trace w init_val init_x init_g direction
  have hv : (w.search init_val init_x init_g direction).trace.valCalls =
      (List.range (w.search init_val init_x init_g direction).trace.iters).map
        (fun m => vadd init_x (smul (w.opt_beta ^ m * w.opt_s) direction)) := by
    conv_lhs => rw [h]
    rfl
  have hg : (w.search init_val init_x init_g direction).trace.gradCalls =
      ((List.range (w.search init_val init_x init_g direction).trace.iters).filter
        (fun m => decide (init_val -
            w.compVal (vadd init_x (smul (w.opt_beta ^ m * w.opt_s) direction)) ≥
          -w.opt_c1 * (w.opt_beta ^ m * w.opt_s) * dot init_g direction))).map
        (fun m => vadd init_x (smul (w.opt_beta ^ m * w.opt_s) direction)) := by
    conv_lhs => rw [h]
    rfl
  refine ⟨hv, hg, ?_, ?_⟩
  · conv_lhs => rw [hv]
    simp
  · conv_lhs => rw [hg]
    simp

/-! ## The first iteration -/

/-- C10, refuted as stated: with `opt_s = 1 > 0` and `opt_maxIt = 0` (the other options
at their defaults) neither search enters the loop: both return `0` without evaluating
the value function. -/
theorem first_iteration_counterexample :
    (0 < (⟨quadratic, 1, 1 / 10, 1 / 2, 1 / 100000, 0⟩ : Armijo).opt_s ∧
      ((⟨quadratic, 1, 1 / 10, 1 / 2, 1 / 100000, 0⟩ : Armijo).search
        4 [2] [4] [-1]).ret = .ok 0 ∧
      ((⟨quadratic, 1, 1 / 10, 1 / 2, 1 / 100000, 0⟩ : Armijo).search
        4 [2] [4] [-1]).trace.iters = 0 ∧
      ((⟨quadratic, 1, 1 / 10, 1 / 2, 1 / 100000, 0⟩ : Armijo).search
        4 [2] [4] [-1]).trace.valCalls = []) ∧
    (0 < (⟨quadratic, quadraticGrad, 1 / 10, 1, 1 / 2, 1 / 100000, 9 / 10, 0⟩ : Wolfe).opt_s ∧
      ((⟨quadratic, quadraticGrad, 1 / 10, 1, 1 / 2, 1 / 100000, 9 / 10, 0⟩ : Wolfe).search
        4 [2] [4] [-1]).ret = .ok 0 ∧
      ((⟨quadratic, quadraticGrad, 1 / 10, 1, 1 / 2, 1 / 100000, 9 / 10, 0⟩ : Wolfe).search
        4 [2] [4] [-1]).trace.iters = 0 ∧
      ((⟨quadratic, quadraticGrad, 1 / 10, 1, 1 / 2, 1 / 100000, 9 / 10, 0⟩ : Wolfe).search
        4 [2] [4] [-1]).trace.valCalls = []) := by
  constructor
  · have h := armijo_loop_stop ⟨quadratic, 1, 1 / 10, 1 / 2, 1 / 100000, 0⟩ 4 [2] [4] [-1] 0 ⊤
      Trace.empty (by simp)
    simp only [Armijo.search]
    rw [if_neg (by norm_num), h]
    exact ⟨by norm_num, rfl, rfl, rfl⟩
  · have h := wolfe_loop_stop ⟨quadratic, quadraticGrad, 1 / 10, 1, 1 / 2, 1 / 100000, 9 / 10, 0⟩
      4 [2] [4] [-1] 0 ⊤ Trace.empty (by simp)
    simp only [Wolfe.search]
    rw [if_neg (by norm_num), h]
    exact ⟨by norm_num, rfl, rfl, rfl⟩

/-! ## Directions that are not descent directions -/

theorem Run.result {opt_maxIt : Nat} {opt_minstep : ℚ} {cand : Nat → ℚ} {acc : Nat → Prop}
    {r : ℚ} {n : Nat} (h : Run opt_maxIt opt_minstep cand acc 0 ⊤ r n) :
    r = 0 ∨ ∃ m, m < opt_maxIt ∧ m < n ∧ r = cand m := by
  rcases h.final with ⟨h0, -, h2⟩ | ⟨h0, -, -⟩
  · right
    have := h.bound h0
    exact ⟨0 + n - 1, by omega, by omega, h2⟩
  · exact Or.inl h0

/-! ## Wolfe accepts less than Armijo -/

/-- C13. Wolfe is a restriction of Armijo: for an `Armijo` and a `Wolfe` object with the
same value function, equal `opt_s`, `opt_minstep`, `opt_beta`, `opt_maxIt` and
`opt_sigma = opt_c1`, with `opt_s > 0` and `opt_beta` in `(0,1)`, whatever the gradient
function and `opt_c2` are: if `Wolfe::search` returns a nonzero `alphaW`, then
`Armijo::search` on the same input returns a nonzero `alphaA >= alphaW`; and if
`Armijo::search` returns `0`, so does `Wolfe::search`. -/
theorem wolfe_restricts_armijo (a : Armijo) (w : Wolfe) (init_val : ℚ)
    (init_x init_g direction : VectorXd)
    (hval : a.compVal = w.compVal) (hs : a.opt_s = w.opt_s)
    (hmin : a.opt_minstep = w.opt_minstep) (hbeta : a.opt_beta = w.opt_beta)
    (hmax : a.opt_maxIt = w.opt_maxIt) (hsig : a.opt_sigma = w.opt_c1)
    (hpos : 0 < a.opt_s) (hb : 0 < a.opt_beta) (hb1 : a.opt_beta < 1) :
    (∀ alphaW, (w.search init_val init_x init_g direction).ret = .ok alphaW → alphaW ≠ 0 →
        ∃ alphaA, (a.search init_val init_x init_g direction).ret = .ok alphaA ∧
          alphaA ≠ 0 ∧ alphaA ≥ alphaW) ∧
      ((a.search init_val init_x init_g direction).ret = .ok 0 →
        (w.search init_val init_x init_g direction).ret = .ok 0) := by
  have hws : 0 < w.opt_s := hs ▸ hpos
  have hwb : 0 < w.opt_beta := hbeta ▸ hb
  have hwb1 : w.opt_beta < 1 := hbeta ▸ hb1
  have himp : ∀ x, w.accepts init_val init_x init_g direction x →
      a.accepts init_val init_x init_g direction x := by
    intro x hx
    have := hx.1
    simp only [Wolfe.gate] at this
    simp only [Armijo.accepts]
    rw [hval, hsig]
    exact this
  have hzero : (a.search init_val init_x init_g direction).ret = .ok 0 →
      (w.search init_val init_x init_g direction).ret = .ok 0 := by
    intro h0
    rw [armijo_search_zero_iff a init_val init_x init_g direction hpos hb hb1] at h0
    rw [wolfe_search_zero_iff w init_val init_x init_g direction hws hwb hwb1]
    intro m hm hacc
    rw [← hmax, ← hmin, ← hbeta, ← hs] at hm
    rw [← hbeta, ← hs] at hacc
    exact h0 m hm (himp _ hacc)
  refine ⟨fun alphaW hret hne => ?_, hzero⟩
  obtain ⟨mW, -, hmW, haccW, -⟩ :=
    wolfe_search_nonzero w init_val init_x init_g direction alphaW hws hret hne
  obtain ⟨n, alphaA, hretA, -, -⟩ := armijo_search_run a init_val init_x init_g direction hpos
  have hneA : alphaA ≠ 0 := by
    intro h0
    rw [h0] at hretA
    have := hzero hretA
    rw [hret] at this
    cases this
    exact hne rfl
  obtain ⟨mA, -, hmA, -, hrejA⟩ :=
    armijo_search_nonzero a init_val init_x init_g direction alphaA hpos hretA hneA
  refine ⟨alphaA, hretA, hneA, ?_⟩
  have hle : mA ≤ mW := by
    by_contra hlt
    have hlt : mW < mA := Nat.lt_of_not_le hlt
    apply hrejA mW hlt
    have := himp _ haccW
    simp only [Wolfe.candidate, ← hbeta, ← hs] at this
    exact this
  rw [hmA, hmW]
  simp only [Wolfe.candidate, Armijo.candidate, ← hbeta, ← hs]
  exact stepLength_anti hpos hb hb1 hle

/-- C13 at `f(x) = x² - x/10` from `0` along `1` and the default options of both
classes, where `Wolfe::search` returns `1/16`: `Armijo::search` returns a nonzero step
length that is at least `1/16`. -/
theorem wolfe_restricts_armijo_witness :
    ((Wolfe.new tilted tiltedGrad).search 0 [0] [-(1 / 10)] [1]).ret = .ok (1 / 16) ∧
      ∃ alphaA, ((Armijo.new tilted).search 0 [0] [-(1 / 10)] [1]).ret = .ok alphaA ∧
        alphaA ≠ 0 ∧ alphaA ≥ 1 / 16 :=
  ⟨wolfe_search_tilted,
    (wolfe_restricts_armijo (Armijo.new tilted) (Wolfe.new tilted tiltedGrad) 0 [0]
      [-(1 / 10)] [1] rfl rfl rfl rfl rfl rfl (by norm_num [Armijo.new])
      (by norm_num [Armijo.new]) (by norm_num [Armijo.new])).1 (1 / 16) wolfe_search_tilted
      (by norm_num)⟩

/-! ## The default options -/

theorem Run.default_run {acc : Nat → Prop} {r : ℚ} {n : Nat}
    (h : Run 10000 (1 / 10) (stepLength (1 / 2) 1) acc 0 ⊤ r n) :
    n ≤ 5 ∧ r ∈ ([0, 1, 1 / 2, 1 / 4, 1 / 8, 1 / 16] : List ℚ) := by
  have hn : n ≤ 5 := by
    by_contra hgt
    have := h.prev 4 (Nat.zero_le 4) (by omega)
    norm_num [stepLength] at this
  refine ⟨hn, ?_⟩
  rcases h.result with h0 | ⟨m, -, hm, hr⟩
  · simp [h0]
  · have hm5 : m < 5 := by omega
    rw [hr]
    interval_cases m <;> norm_num [stepLength]

theorem map_range_default (init_x direction : VectorXd) {n : Nat} (hn : n ≤ 5) :
    (List.range n).map (fun k => stepPoint init_x direction (stepLength (1 / 2) 1 k)) =
      (([1, 1 / 2, 1 / 4, 1 / 8, 1 / 16] : List ℚ).take n).map
        (fun x => vadd init_x (smul x direction)) := by
  interval_cases n <;> norm_num [List.range_succ, stepPoint, stepLength]

/-- C15. Budget under the default options: whatever the value function, the gradient
function and the input are, an `Armijo` or `Wolfe` object with the constructor defaults
executes at most `5` iterations (the cap `10000` is not reached), evaluates the value
function at the points of the candidates `1, 1/2, 1/4, 1/8, 1/16`, in that order and up
to the number of executed iterations, and returns one of `0, 1, 1/2, 1/4, 1/8, 1/16`. -/
theorem default_budget (valFunc : VectorXd → ℚ) (gradFunc : VectorXd → VectorXd)
    (init_val : ℚ) (init_x init_g direction : VectorXd) :
    (((Armijo.new valFunc).search init_val init_x init_g direction).trace.iters ≤ 5 ∧
      ((Armijo.new valFunc).search init_val init_x init_g direction).trace.valCalls.length ≤ 5 ∧
      ((Armijo.new valFunc).search init_val init_x init_g direction).trace.valCalls =
        (([1, 1 / 2, 1 / 4, 1 / 8, 1 / 16] : List ℚ).take
          ((Armijo.new valFunc).search init_val init_x init_g direction).trace.iters).map
          (fun x => vadd init_x (smul x direction)) ∧
      ∃ r, ((Armijo.new valFunc).search init_val init_x init_g direction).ret = .ok r ∧
        r ∈ ([0, 1, 1 / 2, 1 / 4, 1 / 8, 1 / 16] : List ℚ)) ∧
    (((Wolfe.new valFunc gradFunc).search init_val init_x init_g direction).trace.iters ≤ 5 ∧
      ((Wolfe.new valFunc gradFunc).search
        init_val init_x init_g direction).trace.valCalls.length ≤ 5 ∧
      ((Wolfe.new valFunc gradFunc).search init_val init_x init_g direction).trace.valCalls =
        (([1, 1 / 2, 1 / 4, 1 / 8, 1 / 16] : List ℚ).take
          ((Wolfe.new valFunc gradFunc).search
            init_val init_x init_g direction).trace.iters).map
          (fun x => vadd init_x (smul x direction)) ∧
      ∃ r, ((Wolfe.new valFunc gradFunc).search init_val init_x init_g direction).ret = .ok r ∧
        r ∈ ([0, 1, 1 / 2, 1 / 4, 1 / 8, 1 / 16] : List ℚ)) := by
  constructor
  · obtain ⟨n, r, hr, hrun, ht⟩ := armijo_search_run (Armijo.new valFunc) init_val init_x
      init_g direction (by norm_num [Armijo.new])
    obtain ⟨hn, hmem⟩ := Run.default_run hrun
    rw [ht]
    refine ⟨hn, by simpa using hn, map_range_default init_x direction hn, r, hr, hmem⟩
  · obtain ⟨n, r, hr, hrun, ht⟩ := wolfe_search_run (Wolfe.new valFunc gradFunc) init_val init_x
      init_g direction (by norm_num [Wolfe.new])
    obtain ⟨hn, hmem⟩ := Run.default_run hrun
    rw [ht]
    refine ⟨hn, by simpa using hn, map_range_default init_x direction hn, r, hr, hmem⟩

/-! ## The loops over the arithmetic of `double`, characterised -/

theorem fp_alphaBefore_succ {D : Type} (A : fp.Arith D) (opt_beta opt_s : D) (m : Nat) :
    fp.alphaBefore A opt_beta opt_s (m + 1) = fp.candidate A opt_beta opt_s m := by
  simp [fp.alphaBefore]

theorem fp_run_stop {D : Type} {A : fp.Arith D} {opt_maxIt : Nat} {opt_minstep opt_beta opt_s : D}
    {acc : Nat → Bool} {m : Nat}
    (h : ¬ (m < opt_maxIt ∧ A.gt (fp.alphaBefore A opt_beta opt_s m) opt_minstep = true)) :
    fp.Run A opt_maxIt opt_minstep opt_beta opt_s acc m 0 A.zero := by
  refine ⟨?_, ?_, Or.inr ⟨rfl, by simp, by simpa using h⟩⟩
  · intro k h1 h2; omega
  · intro k h1 h2; omega

theorem fp_run_accept {D : Type} {A : fp.Arith D} {opt_maxIt : Nat}
    {opt_minstep opt_beta opt_s : D} {acc : Nat → Bool} {m : Nat}
    (h : m < opt_maxIt ∧ A.gt (fp.alphaBefore A opt_beta opt_s m) opt_minstep = true)
    (ha : acc m = true) :
    fp.Run A opt_maxIt opt_minstep opt_beta opt_s acc m 1 (fp.candidate A opt_beta opt_s m) := by
  refine ⟨?_, ?_, Or.inl ⟨by simp, by simpa using ha, by simp⟩⟩
  · intro k h1 h2
    obtain rfl : k = m := by omega
    exact h
  · intro k h1 h2; omega

theorem fp_run_reject {D : Type} {A : fp.Arith D} {opt_maxIt : Nat}
    {opt_minstep opt_beta opt_s : D} {acc : Nat → Bool} {m n : Nat} {r : D}
    (h : m < opt_maxIt ∧ A.gt (fp.alphaBefore A opt_beta opt_s m) opt_minstep = true)
    (ha : acc m = false)
    (hr : fp.Run A opt_maxIt opt_minstep opt_beta opt_s acc (m + 1) n r) :
    fp.Run A opt_maxIt opt_minstep opt_beta opt_s acc m (n + 1) r := by
  have e : m + (n + 1) - 1 = m + n := by omega
  have e2 : m + 1 + n = m + (n + 1) := by omega
  refine ⟨?_, ?_, ?_⟩
  · intro k h1 h2
    rcases Nat.eq_or_lt_of_le h1 with h3 | h3
    · subst h3; exact h
    · exact hr.guard k h3 (by omega)
  · intro k h1 h2
    rcases Nat.eq_or_lt_of_le h1 with h3 | h3
    · subst h3; exact ha
    · exact hr.rejects k h3 (by omega)
  · rw [e]
    rcases Nat.eq_zero_or_pos n with h0 | h0
    · subst h0
      rcases hr.final with ⟨h1, _⟩ | ⟨h1, _, h3⟩
      · omega
      · exact Or.inr ⟨h1, fun _ => ha, by simpa using h3⟩
    · have e3 : m + 1 + n - 1 = m + n := by omega
      rcases hr.final with ⟨_, h2, h3⟩ | ⟨h1, h2, h3⟩
      · rw [e3] at h2 h3
        exact Or.inl ⟨by omega, h2, h3⟩
      · rw [e3] at h2
        rw [e2] at h3
        exact Or.inr ⟨h1, fun _ => h2 h0, h3⟩

/-- A run from counter `0` in which the guard holds up to `m`, the candidates before
`m` are rejected and the candidate of `m` is accepted, executes `m + 1` bodies and gives
the candidate of `m`. -/
theorem fp_run_first {D : Type} {A : fp.Arith D} {opt_maxIt : Nat}
    {opt_minstep opt_beta opt_s : D} {acc : Nat → Bool} {n : Nat} {r : D}
    (h : fp.Run A opt_maxIt opt_minstep opt_beta opt_s acc 0 n r) (m : Nat)
    (hg : ∀ k, k ≤ m →
      k < opt_maxIt ∧ A.gt (fp.alphaBefore A opt_beta opt_s k) opt_minstep = true)
    (hrej : ∀ k, k < m → acc k = false) (hacc : acc m = true) :
    n = m + 1 ∧ r = fp.candidate A opt_beta opt_s m := by
  have hn1 : m + 1 ≤ n := by
    by_contra hlt
    rcases h.final with ⟨h0, h1, -⟩ | ⟨-, -, h3⟩
    · have := hrej (0 + n - 1) (by omega)
      rw [this] at h1
      exact absurd h1 (by simp)
    · exact h3 (by simpa using hg n (by omega))
  have hn2 : n ≤ m + 1 := by
    by_contra hlt
    have := h.rejects m (Nat.zero_le m) (by omega)
    rw [this] at hacc
    exact absurd hacc (by simp)
  have hn : n = m + 1 := by omega
  subst hn
  refine ⟨rfl, ?_⟩
  rcases h.final with ⟨-, -, h2⟩ | ⟨-, h2, -⟩
  · simpa using h2
  · have := h2 (by omega)
    simp only [Nat.zero_add, Nat.add_sub_cancel] at this
    rw [this] at hacc
    exact absurd hacc (by simp)

theorem fp_armijo_loop_stop {D : Type} (A : fp.Arith D) (self : fp.Armijo D) (init_val : D)
    (init_x init_g direction : List D) (m : Nat) (alpha : D) (t : fp.Trace D)
    (hg : ¬ (m < self.opt_maxIt ∧ A.gt alpha self.opt_minstep = true)) :
    fp.Armijo.loop A self init_val init_x direction (A.dot init_g direction) m alpha t =
      (A.zero, t) := by
  rw [fp.Armijo.loop, if_neg hg]

theorem fp_armijo_loop_accept {D : Type} (A : fp.Arith D) (self : fp.Armijo D) (init_val : D)
    (init_x init_g direction : List D) (m : Nat) (alpha : D) (t : fp.Trace D)
    (hg : m < self.opt_maxIt ∧ A.gt alpha self.opt_minstep = true)
    (ha : self.accepts A init_val init_x init_g direction
      (fp.candidate A self.opt_beta self.opt_s m) = true) :
    fp.Armijo.loop A self init_val init_x direction (A.dot init_g direction) m alpha t =
      (fp.candidate A self.opt_beta self.opt_s m,
        t.enter.val (A.axpy init_x (fp.candidate A self.opt_beta self.opt_s m) direction)) := by
  simp only [fp.Armijo.accepts, fp.decrease, fp.candidate] at ha
  rw [fp.Armijo.loop, if_pos hg]
  simp only [if_pos ha]
  rfl

theorem fp_armijo_loop_reject {D : Type} (A : fp.Arith D) (self : fp.Armijo D) (init_val : D)
    (init_x init_g direction : List D) (m : Nat) (alpha : D) (t : fp.Trace D)
    (hg : m < self.opt_maxIt ∧ A.gt alpha self.opt_minstep = true)
    (ha : self.accepts A init_val init_x init_g direction
      (fp.candidate A self.opt_beta self.opt_s m) = false) :
    fp.Armijo.loop A self init_val init_x direction (A.dot init_g direction) m alpha t =
      fp.Armijo.loop A self init_val init_x direction (A.dot init_g direction) (m + 1)
        (fp.candidate A self.opt_beta self.opt_s m)
        (t.enter.val (A.axpy init_x (fp.candidate A self.opt_beta self.opt_s m) direction)) := by
  simp only [fp.Armijo.accepts, fp.decrease, fp.candidate] at ha
  rw [fp.Armijo.loop, if_pos hg]
  simp only [ha]
  rfl

theorem fp_armijo_loop_run {D : Type} (A : fp.Arith D) (self : fp.Armijo D) (init_val : D)
    (init_x init_g direction : List D) :
    ∀ (d m : Nat) (t : fp.Trace D), self.opt_maxIt - m = d →
      ∃ n, fp.Run A self.opt_maxIt self.opt_minstep self.opt_beta self.opt_s
          (fun k => self.accepts A init_val init_x init_g direction
            (fp.candidate A self.opt_beta self.opt_s k)) m n
          (fp.Armijo.loop A self init_val init_x direction (A.dot init_g direction) m
            (fp.alphaBefore A self.opt_beta self.opt_s m) t).1 ∧
        (fp.Armijo.loop A self init_val init_x direction (A.dot init_g direction) m
            (fp.alphaBefore A self.opt_beta self.opt_s m) t).2.iters = t.iters + n ∧
        (fp.Armijo.loop A self init_val init_x direction (A.dot init_g direction) m
            (fp.alphaBefore A self.opt_beta self.opt_s m) t).2.valCalls =
          t.valCalls ++ (List.range' m n).map
            (fun k => A.axpy init_x (fp.candidate A self.opt_beta self.opt_s k) direction) := by
  intro d
  induction d with
  | zero =>
    intro m t hd
    have hg : ¬ (m < self.opt_maxIt ∧
        A.gt (fp.alphaBefore A self.opt_beta self.opt_s m) self.opt_minstep = true) := by
      intro h; omega
    rw [fp_armijo_loop_stop A self init_val init_x init_g direction m _ t hg]
    exact ⟨0, fp_run_stop hg, by simp, by simp⟩
  | succ d ih =>
    intro m t hd
    by_cases hg : m < self.opt_maxIt ∧
        A.gt (fp.alphaBefore A self.opt_beta self.opt_s m) self.opt_minstep = true
    · cases ha : self.accepts A init_val init_x init_g direction
          (fp.candidate A self.opt_beta self.opt_s m)
      · rw [fp_armijo_loop_reject A self init_val init_x init_g direction m _ t hg ha]
        obtain ⟨n, hr, hi, hv⟩ := ih (m + 1)
          (t.enter.val (A.axpy init_x (fp.candidate A self.opt_beta self.opt_s m) direction))
          (by omega)
        rw [fp_alphaBefore_succ] at hr hi hv
        refine ⟨n + 1, fp_run_reject hg ha hr, ?_, ?_⟩
        · rw [hi]
          simp only [fp.Trace.enter, fp.Trace.val]
          omega
        · rw [hv]
          simp [fp.Trace.enter, fp.Trace.val, List.range'_succ]
      · rw [fp_armijo_loop_accept A self init_val init_x init_g direction m _ t hg ha]
        exact ⟨1, fp_run_accept hg ha, by simp [fp.Trace.enter, fp.Trace.val],
          by simp [fp.Trace.enter, fp.Trace.val]⟩
    · rw [fp_armijo_loop_stop A self init_val init_x init_g direction m _ t hg]
      exact ⟨0, fp_run_stop hg, by simp, by simp⟩

/-- A call of `Armijo::search` that passes the check of `opt_s` returns normally, and is
a run of the loop from counter `0`. -/
theorem fp_armijo_search_run {D : Type} (A : fp.Arith D) (self : fp.Armijo D) (init_val : D)
    (init_x init_g direction : List D) (hs : A.le self.opt_s A.zero = false) :
    ∃ n r, (fp.Armijo.search A self init_val init_x init_g direction).ret = .ok r ∧
      fp.Run A self.opt_maxIt self.opt_minstep self.opt_beta self.opt_s
        (fun k => self.accepts A init_val init_x init_g direction
          (fp.candidate A self.opt_beta self.opt_s k)) 0 n r ∧
      (fp.Armijo.search A self init_val init_x init_g direction).trace.iters = n ∧
      (fp.Armijo.search A self init_val init_x init_g direction).trace.valCalls =
        (List.range n).map
          (fun k => A.axpy init_x (fp.candidate A self.opt_beta self.opt_s k) direction) := by
  obtain ⟨n, hr, hi, hv⟩ :=
    fp_armijo_loop_run A self init_val init_x init_g direction _ 0 fp.Trace.empty rfl
  have h0 : fp.alphaBefore A self.opt_beta self.opt_s 0 = A.infinity := by simp [fp.alphaBefore]
  rw [h0] at hr hi hv
  refine ⟨n, _, ?_, hr, ?_, ?_⟩
  · simp [fp.Armijo.search, hs]
  · simp only [fp.Armijo.search, hs]
    simpa [fp.Trace.empty] using hi
  · simp only [fp.Armijo.search, hs]
    simpa [fp.Trace.empty, List.range_eq_range'] using hv

theorem fp_wolfe_loop_stop {D : Type} (A : fp.Arith D) (self : fp.Wolfe D) (init_val : D)
    (init_x init_g direction : List D) (m : Nat) (alpha : D) (t : fp.Trace D)
    (hg : ¬ (m < self.opt_maxIt ∧ A.gt alpha self.opt_minstep = true)) :
    fp.Wolfe.loop A self init_val init_x direction (A.dot init_g direction) m alpha t =
      (A.zero, t) := by
  rw [fp.Wolfe.loop, if_neg hg]

theorem fp_wolfe_loop_accept {D : Type} (A : fp.Arith D) (self : fp.Wolfe D) (init_val : D)
    (init_x init_g direction : List D) (m : Nat) (alpha : D) (t : fp.Trace D)
    (hg : m < self.opt_maxIt ∧ A.gt alpha self.opt_minstep = true)
    (ha : self.accepts A init_val init_x init_g direction
      (fp.candidate A self.opt_beta self.opt_s m) = true) :
    fp.Wolfe.loop A self init_val init_x direction (A.dot init_g direction) m alpha t =
      (fp.candidate A self.opt_beta self.opt_s m,
        (t.enter.val (A.axpy init_x (fp.candidate A self.opt_beta self.opt_s m) direction)).grad
          (A.axpy init_x (fp.candidate A self.opt_beta self.opt_s m) direction)) := by
  simp only [fp.Wolfe.accepts, fp.decrease, fp.candidate, Bool.and_eq_true] at ha
  rw [fp.Wolfe.loop, if_pos hg]
  simp only [if_pos ha.1, if_pos ha.2]
  rfl

theorem fp_wolfe_loop_reject {D : Type} (A : fp.Arith D) (self : fp.Wolfe D) (init_val : D)
    (init_x init_g direction : List D) (m : Nat) (alpha : D) (t : fp.Trace D)
    (hg : m < self.opt_maxIt ∧ A.gt alpha self.opt_minstep = true)
    (ha : self.accepts A init_val init_x init_g direction
      (fp.candidate A self.opt_beta self.opt_s m) = false) :
    ∃ t1 : fp.Trace D,
      fp.Wolfe.loop A self init_val init_x direction (A.dot init_g direction) m alpha t =
        fp.Wolfe.loop A self init_val init_x direction (A.dot init_g direction) (m + 1)
          (fp.candidate A self.opt_beta self.opt_s m) t1 ∧
      t1.iters = t.iters + 1 ∧
      t1.valCalls = t.valCalls ++
        [A.axpy init_x (fp.candidate A self.opt_beta self.opt_s m) direction] := by
  simp only [fp.Wolfe.accepts, fp.decrease, fp.candidate] at ha
  cases h1 : A.ge (A.sub init_val
      (self.compVal (A.axpy init_x (A.mul (A.pow self.opt_beta m) self.opt_s) direction)))
      (A.mul (A.mul (A.neg self.opt_c1) (A.mul (A.pow self.opt_beta m) self.opt_s))
        (A.dot init_g direction))
  · refine ⟨t.enter.val (A.axpy init_x (fp.candidate A self.opt_beta self.opt_s m) direction),
      ?_, rfl, rfl⟩
    rw [fp.Wolfe.loop, if_pos hg]
    simp only [h1]
    rfl
  · rw [h1, Bool.true_and] at ha
    refine ⟨(t.enter.val
        (A.axpy init_x (fp.candidate A self.opt_beta self.opt_s m) direction)).grad
        (A.axpy init_x (fp.candidate A self.opt_beta self.opt_s m) direction), ?_, rfl, rfl⟩
    rw [fp.Wolfe.loop, if_pos hg]
    simp only [h1, ha]
    rfl

theorem fp_wolfe_loop_run {D : Type} (A : fp.Arith D) (self : fp.Wolfe D) (init_val : D)
    (init_x init_g direction : List D) :
    ∀ (d m : Nat) (t : fp.Trace D), self.opt_maxIt - m = d →
      ∃ n, fp.Run A self.opt_maxIt self.opt_minstep self.opt_beta self.opt_s
          (fun k => self.accepts A init_val init_x init_g direction
            (fp.candidate A self.opt_beta self.opt_s k)) m n
          (fp.Wolfe.loop A self init_val init_x direction (A.dot init_g direction) m
            (fp.alphaBefore A self.opt_beta self.opt_s m) t).1 ∧
        (fp.Wolfe.loop A self init_val init_x direction (A.dot init_g direction) m
            (fp.alphaBefore A self.opt_beta self.opt_s m) t).2.iters = t.iters + n ∧
        (fp.Wolfe.loop A self init_val init_x direction (A.dot init_g direction) m
            (fp.alphaBefore A self.opt_beta self.opt_s m) t).2.valCalls =
          t.valCalls ++ (List.range' m n).map
            (fun k => A.axpy init_x (fp.candidate A self.opt_beta self.opt_s k) direction) := by
  intro d
  induction d with
  | zero =>
    intro m t hd
    have hg : ¬ (m < self.opt_maxIt ∧
        A.gt (fp.alphaBefore A self.opt_beta self.opt_s m) self.opt_minstep = true) := by
      intro h; omega
    rw [fp_wolfe_loop_stop A self init_val init_x init_g direction m _ t hg]
    exact ⟨0, fp_run_stop hg, by simp, by simp⟩
  | succ d ih =>
    intro m t hd
    by_cases hg : m < self.opt_maxIt ∧
        A.gt (fp.alphaBefore A self.opt_beta self.opt_s m) self.opt_minstep = true
    · cases ha : self.accepts A init_val init_x init_g direction
          (fp.candidate A self.opt_beta self.opt_s m)
      · obtain ⟨t1, he, h1i, h1v⟩ :=
          fp_wolfe_loop_reject A self init_val init_x init_g direction m _ t hg ha
        rw [he]
        obtain ⟨n, hr, hi, hv⟩ := ih (m + 1) t1 (by omega)
        rw [fp_alphaBefore_succ] at hr hi hv
        refine ⟨n + 1, fp_run_reject hg ha hr, ?_, ?_⟩
        · rw [hi, h1i]
          omega
        · rw [hv, h1v]
          simp [List.range'_succ]
      · rw [fp_wolfe_loop_accept A self init_val init_x init_g direction m _ t hg ha]
        exact ⟨1, fp_run_accept hg ha, by simp [fp.Trace.enter, fp.Trace.val, fp.Trace.grad],
          by simp [fp.Trace.enter, fp.Trace.val, fp.Trace.grad]⟩
    · rw [fp_wolfe_loop_stop A self init_val init_x init_g direction m _ t hg]
      exact ⟨0, fp_run_stop hg, by simp, by simp⟩

/-- A call of `Wolfe::search` that passes the check of `opt_s` returns normally, and is a
run of the loop from counter `0`. -/
theorem fp_wolfe_search_run {D : Type} (A : fp.Arith D) (self : fp.Wolfe D) (init_val : D)
    (init_x init_g direction : List D) (hs : A.le self.opt_s A.zero = false) :
    ∃ n r, (fp.Wolfe.search A self init_val init_x init_g direction).ret = .ok r ∧
      fp.Run A self.opt_maxIt self.opt_minstep self.opt_beta self.opt_s
        (fun k => self.accepts A init_val init_x init_g direction
          (fp.candidate A self.opt_beta self.opt_s k)) 0 n r ∧
      (fp.Wolfe.search A self init_val init_x init_g direction).trace.iters = n ∧
      (fp.Wolfe.search A self init_val init_x init_g direction).trace.valCalls =
        (List.range n).map
          (fun k => A.axpy init_x (fp.candidate A self.opt_beta self.opt_s k) direction) := by
  obtain ⟨n, hr, hi, hv⟩ :=
    fp_wolfe_loop_run A self init_val init_x init_g direction _ 0 fp.Trace.empty rfl
  have h0 : fp.alphaBefore A self.opt_beta self.opt_s 0 = A.infinity := by simp [fp.alphaBefore]
  rw [h0] at hr hi hv
  refine ⟨n, _, ?_, hr, ?_, ?_⟩
  · simp [fp.Wolfe.search, hs]
  · simp only [fp.Wolfe.search, hs]
    simpa [fp.Trace.empty] using hi
  · simp only [fp.Wolfe.search, hs]
    simpa [fp.Trace.empty, List.range_eq_range'] using hv

/-! ## What a run of the loop gives, whatever the arithmetic -/

theorem fp_run_exceeds {D : Type} {A : fp.Arith D} {opt_maxIt : Nat}
    {opt_minstep opt_beta opt_s : D} {acc : Nat → Bool} {n : Nat} {r : D}
    (h : fp.Run A opt_maxIt opt_minstep opt_beta opt_s acc 0 n r) (k : Nat) (hk : k + 1 < n) :
    A.gt (fp.candidate A opt_beta opt_s k) opt_minstep = true := by
  have := (h.guard (k + 1) (Nat.zero_le _) (by omega)).2
  rwa [fp_alphaBefore_succ] at this

theorem fp_run_result {D : Type} {A : fp.Arith D} {opt_maxIt : Nat}
    {opt_minstep opt_beta opt_s : D} {acc : Nat → Bool} {n : Nat} {r : D}
    (h : fp.Run A opt_maxIt opt_minstep opt_beta opt_s acc 0 n r) :
    r = A.zero ∨ ∃ m, m + 1 = n ∧ m < opt_maxIt ∧ r = fp.candidate A opt_beta opt_s m ∧
      (m = 0 ∨ A.gt (fp.candidate A opt_beta opt_s (m - 1)) opt_minstep = true) := by
  rcases h.final with ⟨h0, -, h2⟩ | ⟨h0, -, -⟩
  · right
    refine ⟨0 + n - 1, by omega, (h.guard _ (Nat.zero_le _) (by omega)).1, h2, ?_⟩
    rcases Nat.lt_or_ge 1 n with h1 | h1
    · right
      have := fp_run_exceeds h (n - 2) (by omega)
      have e : 0 + n - 1 - 1 = n - 2 := by omega
      rw [e]
      exact this
    · left; omega
  · exact Or.inl h0

theorem fp_run_enters_iff {D : Type} {A : fp.Arith D} {opt_maxIt : Nat}
    {opt_minstep opt_beta opt_s : D} {acc : Nat → Bool} {n : Nat} {r : D}
    (h : fp.Run A opt_maxIt opt_minstep opt_beta opt_s acc 0 n r) :
    1 ≤ n ↔ 1 ≤ opt_maxIt ∧ A.gt A.infinity opt_minstep = true := by
  have e : fp.alphaBefore A opt_beta opt_s 0 = A.infinity := by simp [fp.alphaBefore]
  constructor
  · intro hn
    have := h.guard 0 (Nat.le_refl 0) (by omega)
    rw [e] at this
    exact ⟨this.1, this.2⟩
  · intro hg
    by_contra hn
    obtain rfl : n = 0 := by omega
    rcases h.final with ⟨h0, -⟩ | ⟨-, -, h3⟩
    · omega
    · rw [Nat.add_zero, e] at h3
      exact h3 ⟨hg.1, hg.2⟩

theorem fp_head_map_range {α : Type} (f : Nat → α) {n : Nat} (hn : 1 ≤ n) :
    ((List.range n).map f).head? = some (f 0) := by
  obtain ⟨j, rfl⟩ : ∃ j, n = j + 1 := ⟨n - 1, by omega⟩
  simp [List.range_succ_eq_map]

/-! ## The rounding of `binary64` -/

theorem log2Bound_spec (n : Nat) :
    ∀ fuel k, n < 2 ^ 2 ^ (k + fuel) → n < 2 ^ 2 ^ Double.log2Bound fuel k n := by
  intro fuel
  induction fuel with
  | zero => intro k h; simpa [Double.log2Bound] using h
  | succ fuel ih =>
    intro k h
    simp only [Double.log2Bound]
    split
    · assumption
    · exact ih (k + 1) (by rwa [Nat.add_assoc, Nat.add_comm 1 fuel])

theorem log2Search_spec (n : Nat) :
    ∀ k lo, 2 ^ lo ≤ n → n < 2 ^ (lo + 2 ^ k) →
      2 ^ Double.log2Search k lo n ≤ n ∧ n < 2 ^ (Double.log2Search k lo n + 1) := by
  intro k
  induction k with
  | zero =>
    intro lo h1 h2
    exact ⟨by simpa [Double.log2Search] using h1, by simpa [Double.log2Search] using h2⟩
  | succ k ih =>
    intro lo h1 h2
    simp only [Double.log2Search]
    split
    · rename_i h
      exact ih _ h (by rwa [Nat.add_assoc, ← Nat.two_mul, ← pow_succ'])
    · rename_i h
      exact ih _ h1 (Nat.lt_of_not_le h)

/-- The number `bitLength n` is the number of binary digits of `n`. -/
theorem bitLength_spec (n : Nat) (hn : n ≠ 0) :
    2 ^ (Double.bitLength n - 1) ≤ n ∧ n < 2 ^ Double.bitLength n := by
  have hb : n < 2 ^ 2 ^ Double.log2Bound n 0 n :=
    log2Bound_spec n n 0 (by
      rw [Nat.zero_add]
      exact lt_trans (Nat.lt_two_pow n) (Nat.pow_lt_pow_right (by norm_num) (Nat.lt_two_pow n)))
  have := log2Search_spec n (Double.log2Bound n 0 n) 0 (by simpa using Nat.pos_of_ne_zero hn)
    (by simpa using hb)
  simpa [Double.bitLength, hn] using this

/-- The function `roundNat` rounds to nearest, ties to even, to 53 significant digits
and to no digit below the unit: with `q = bitLength n - 53 - s` the exponent of the
last kept digit, `roundNat n s` is a multiple `up * 2^q` with `up <= 2^53`, and with
`2^52 <= up` when `q > 0`; it is within half a unit of that digit of `n / 2^s`; and `up`
is even when `n / 2^s` is half way between two multiples. -/
theorem roundNat_spec (n s : Nat) :
    ∃ up, Double.roundNat n s = up * 2 ^ (Double.bitLength n - 53 - s) ∧ up ≤ 2 ^ 53 ∧
      (0 < Double.bitLength n - 53 - s → 2 ^ 52 ≤ up) ∧
      2 * (up * 2 ^ (s + (Double.bitLength n - 53 - s))) ≤
        2 * n + 2 ^ (s + (Double.bitLength n - 53 - s)) ∧
      2 * n ≤ 2 * (up * 2 ^ (s + (Double.bitLength n - 53 - s))) +
        2 ^ (s + (Double.bitLength n - 53 - s)) ∧
      (2 * (n % 2 ^ (s + (Double.bitLength n - 53 - s))) =
        2 ^ (s + (Double.bitLength n - 53 - s)) → up % 2 = 0) := by
  generalize hq : Double.bitLength n - 53 - s = q
  have hT : 0 < 2 ^ (s + q) := Nat.two_pow_pos _
  have hdm := Nat.div_add_mod n (2 ^ (s + q))
  have hr := Nat.mod_lt n hT
  have hd : n / 2 ^ (s + q) < 2 ^ 53 := by
    rw [Nat.div_lt_iff_lt_mul hT, ← pow_add]
    rcases Nat.eq_zero_or_pos n with h0 | h0
    · subst h0; exact Nat.two_pow_pos _
    · exact lt_of_lt_of_le (bitLength_spec n (by omega)).2
        (Nat.pow_le_pow_right (by norm_num) (by omega))
  have hlow : 0 < q → 2 ^ 52 ≤ n / 2 ^ (s + q) := by
    intro h0
    have hn : n ≠ 0 := by
      rintro rfl
      simp [Double.bitLength] at hq
      omega
    rw [Nat.le_div_iff_mul_le hT, ← pow_add]
    exact le_trans (Nat.pow_le_pow_right (by norm_num) (by omega)) (bitLength_spec n hn).1
  have hmul : 2 ^ (s + q) * (n / 2 ^ (s + q)) = n / 2 ^ (s + q) * 2 ^ (s + q) := Nat.mul_comm _ _
  refine ⟨if 2 ^ (s + q) < 2 * (n % 2 ^ (s + q)) ∨
      (2 * (n % 2 ^ (s + q)) = 2 ^ (s + q) ∧ n / 2 ^ (s + q) % 2 = 1)
      then n / 2 ^ (s + q) + 1 else n / 2 ^ (s + q), ?_, ?_, ?_, ?_, ?_, ?_⟩
  · simp only [Double.roundNat, hq]
  · split <;> omega
  · intro h0
    have := hlow h0
    split <;> omega
  · split
    · rename_i h
      rw [Nat.add_mul, Nat.one_mul]
      omega
    · rename_i h
      omega
  · split
    · rw [Nat.add_mul, Nat.one_mul]
      omega
    · rename_i h
      omega
  · intro htie
    split
    · rename_i h
      omega
    · rename_i h
      omega
set_option exponentiation.threshold 4096

/-! ## Calls in binary64 -/

/-- In binary64, `Armijo::search` with `opt_s = 5 * 2^-1074`, `opt_beta = 1/2` and
`opt_minstep = 4 * 2^-1074` on `f(x) = x₀` with `init_val = 3 * 2^-1074` rejects `opt_s`
and accepts the candidate `pow(1/2, 1)*opt_s`, which rounds to `2 * 2^-1074`. -/
theorem fp_armijo_search_tie :
    (fp.Armijo.search binary64 tieArmijo (Double.subnormal 3) [Double.subnormal 0]
        [Double.subnormal 0] [Double.pow2 0]).ret = .ok (Double.subnormal 2) ∧
      (fp.Armijo.search binary64 tieArmijo (Double.subnormal 3) [Double.subnormal 0]
        [Double.subnormal 0] [Double.pow2 0]).trace.iters = 2 := by
  obtain ⟨n, r, hr, hrun, hi, -⟩ := fp_armijo_search_run binary64 tieArmijo
    (Double.subnormal 3) [Double.subnormal 0] [Double.subnormal 0] [Double.pow2 0] (by decide)
  obtain ⟨hn, hr1⟩ := fp_run_first hrun 1
    (by intro k hk; interval_cases k <;> decide)
    (by intro k hk; obtain rfl : k = 0 := by omega
        decide) (by decide)
  rw [hr, hi, hn, hr1]
  exact ⟨congrArg Except.ok (by decide), rfl⟩

/-- C7, amended: in a call of either search that passes the check of `opt_s` (as it
does for `opt_s > 0`), every candidate `pow(opt_beta, k)*opt_s` that is tested before
the last tested one exceeds `opt_minstep`; a nonzero step length that is returned is the
last tested candidate, and it is either the first candidate or the candidate after one
that exceeds `opt_minstep`. -/
theorem fp_search_step_floor {D : Type} (A : fp.Arith D) (a : fp.Armijo D)
    (w : fp.Wolfe D) (init_val : D) (init_x init_g direction : List D)
    (has : A.le a.opt_s A.zero = false) (hws : A.le w.opt_s A.zero = false) :
    ((∀ k, k + 1 < (fp.Armijo.search A a init_val init_x init_g direction).trace.iters →
        A.gt (A.mul (A.pow a.opt_beta k) a.opt_s) a.opt_minstep = true) ∧
      (∀ r, (fp.Armijo.search A a init_val init_x init_g direction).ret = .ok r → r ≠ A.zero →
        ∃ m, m + 1 = (fp.Armijo.search A a init_val init_x init_g direction).trace.iters ∧
          r = A.mul (A.pow a.opt_beta m) a.opt_s ∧
          (m = 0 ∨ A.gt (A.mul (A.pow a.opt_beta (m - 1)) a.opt_s) a.opt_minstep = true))) ∧
    ((∀ k, k + 1 < (fp.Wolfe.search A w init_val init_x init_g direction).trace.iters →
        A.gt (A.mul (A.pow w.opt_beta k) w.opt_s) w.opt_minstep = true) ∧
      (∀ r, (fp.Wolfe.search A w init_val init_x init_g direction).ret = .ok r → r ≠ A.zero →
        ∃ m, m + 1 = (fp.Wolfe.search A w init_val init_x init_g direction).trace.iters ∧
          r = A.mul (A.pow w.opt_beta m) w.opt_s ∧
          (m = 0 ∨ A.gt (A.mul (A.pow w.opt_beta (m - 1)) w.opt_s) w.opt_minstep = true))) := by
  constructor
  · obtain ⟨n, r, hr, hrun, hi, -⟩ :=
      fp_armijo_search_run A a init_val init_x init_g direction has
    rw [hi, hr]
    refine ⟨fun k hk => fp_run_exceeds hrun k hk, fun r1 he hne => ?_⟩
    cases he
    rcases fp_run_result hrun with h0 | ⟨m, h1, -, h2, h3⟩
    · exact absurd h0 hne
    · exact ⟨m, h1, h2, h3⟩
  · obtain ⟨n, r, hr, hrun, hi, -⟩ :=
      fp_wolfe_search_run A w init_val init_x init_g direction hws
    rw [hi, hr]
    refine ⟨fun k hk => fp_run_exceeds hrun k hk, fun r1 he hne => ?_⟩
    cases he
    rcases fp_run_result hrun with h0 | ⟨m, h1, -, h2, h3⟩
    · exact absurd h0 hne
    · exact ⟨m, h1, h2, h3⟩

/-- C7, amended, in binary64 at `opt_s = 5 * 2^-1074`, `opt_minstep = 4 * 2^-1074`,
`opt_beta = 1/2`, where `Armijo::search` returns `2 * 2^-1074`: it is the candidate of
iteration `1`, and the candidate before it exceeds `opt_minstep`. -/
theorem fp_search_step_floor_witness :
    ∃ m, m + 1 = (fp.Armijo.search binary64 tieArmijo (Double.subnormal 3)
        [Double.subnormal 0] [Double.subnormal 0] [Double.pow2 0]).trace.iters ∧
      Double.subnormal 2 = binary64.mul (binary64.pow tieArmijo.opt_beta m) tieArmijo.opt_s ∧
      (m = 0 ∨ binary64.gt (binary64.mul (binary64.pow tieArmijo.opt_beta (m - 1))
        tieArmijo.opt_s) tieArmijo.opt_minstep = true) :=
  (fp_search_step_floor binary64 tieArmijo tieWolfe (Double.subnormal 3) [Double.subnormal 0]
    [Double.subnormal 0] [Double.pow2 0] (by decide) (by decide)).1.2 (Double.subnormal 2)
    fp_armijo_search_tie.1 (by decide)

/-- C14, refuted as stated: in binary64, with `opt_s = 5 * 2^-1074 > 0`,
`opt_beta = 1/2` in `(0,1)` and `opt_minstep = 4 * 2^-1074`, `Armijo::search` on
`f(x) = x₀` from `0` along `1` with `init_val = 3 * 2^-1074` returns the nonzero step
length `2 * 2^-1074`, the rounded `pow(1/2, 1)*opt_s`; it is not `opt_s` and it does not
exceed `opt_beta * opt_minstep = 2 * 2^-1074`. -/
theorem actual_floor_counterexample :
    binary64.gt tieArmijo.opt_s binary64.zero = true ∧
      binary64.gt tieArmijo.opt_beta binary64.zero = true ∧
      binary64.gt (Double.pow2 0) tieArmijo.opt_beta = true ∧
      (fp.Armijo.search binary64 tieArmijo (Double.subnormal 3) [Double.subnormal 0]
        [Double.subnormal 0] [Double.pow2 0]).ret = .ok (Double.subnormal 2) ∧
      Double.eq (Double.subnormal 2) binary64.zero = false ∧
      Double.eq (Double.subnormal 2) tieArmijo.opt_s = false ∧
      binary64.mul tieArmijo.opt_beta tieArmijo.opt_minstep = Double.subnormal 2 ∧
      binary64.gt (Double.subnormal 2)
        (binary64.mul tieArmijo.opt_beta tieArmijo.opt_minstep) = false :=
  ⟨by decide, by decide, by decide, fp_armijo_search_tie.1, by decide, by decide, by decide,
    by decide⟩

/-- C14, amended: in a call of either search that passes the check of `opt_s` (as it
does for `opt_s > 0`), every nonzero step length returned is the first candidate
`pow(opt_beta, 0)*opt_s` or the candidate `pow(opt_beta, m+1)*opt_s` after a candidate
that exceeds `opt_minstep`; and once a candidate does not exceed `opt_minstep`, no later
iteration is executed. -/
theorem fp_search_actual_floor {D : Type} (A : fp.Arith D) (a : fp.Armijo D)
    (w : fp.Wolfe D) (init_val : D) (init_x init_g direction : List D)
    (has : A.le a.opt_s A.zero = false) (hws : A.le w.opt_s A.zero = false) :
    ((∀ r, (fp.Armijo.search A a init_val init_x init_g direction).ret = .ok r → r ≠ A.zero →
        r = A.mul (A.pow a.opt_beta 0) a.opt_s ∨
          ∃ m, r = A.mul (A.pow a.opt_beta (m + 1)) a.opt_s ∧
            A.gt (A.mul (A.pow a.opt_beta m) a.opt_s) a.opt_minstep = true) ∧
      (∀ k j, A.gt (A.mul (A.pow a.opt_beta k) a.opt_s) a.opt_minstep = false → k < j →
        ¬ j < (fp.Armijo.search A a init_val init_x init_g direction).trace.iters)) ∧
    ((∀ r, (fp.Wolfe.search A w init_val init_x init_g direction).ret = .ok r → r ≠ A.zero →
        r = A.mul (A.pow w.opt_beta 0) w.opt_s ∨
          ∃ m, r = A.mul (A.pow w.opt_beta (m + 1)) w.opt_s ∧
            A.gt (A.mul (A.pow w.opt_beta m) w.opt_s) w.opt_minstep = true) ∧
      (∀ k j, A.gt (A.mul (A.pow w.opt_beta k) w.opt_s) w.opt_minstep = false → k < j →
        ¬ j < (fp.Wolfe.search A w init_val init_x init_g direction).trace.iters)) := by
  have key : ∀ {n : Nat} {r : D} {acc : Nat → Bool} {maxIt : Nat} {minstep beta s : D},
      fp.Run A maxIt minstep beta s acc 0 n r →
      (r ≠ A.zero → r = A.mul (A.pow beta 0) s ∨
        ∃ m, r = A.mul (A.pow beta (m + 1)) s ∧ A.gt (A.mul (A.pow beta m) s) minstep = true) ∧
      (∀ k j, A.gt (A.mul (A.pow beta k) s) minstep = false → k < j → ¬ j < n) := by
    intro n r acc maxIt minstep beta s hrun
    constructor
    · intro hne
      rcases fp_run_result hrun with h0 | ⟨m, -, -, h2, h3⟩
      · exact absurd h0 hne
      · rcases h3 with h3 | h3
        · subst h3; exact Or.inl h2
        · rcases Nat.eq_zero_or_pos m with h4 | h4
          · subst h4; exact Or.inl h2
          · obtain ⟨j, rfl⟩ : ∃ j, m = j + 1 := ⟨m - 1, by omega⟩
            exact Or.inr ⟨j, h2, by simpa [fp.candidate] using h3⟩
    · intro k j hk hkj hj
      have := fp_run_exceeds hrun k (by omega)
      simp only [fp.candidate] at this
      rw [this] at hk
      exact absurd hk (by simp)
  constructor
  · obtain ⟨n, r, hr, hrun, hi, -⟩ :=
      fp_armijo_search_run A a init_val init_x init_g direction has
    rw [hi, hr]
    refine ⟨fun r1 he hne => ?_, (key hrun).2⟩
    cases he
    exact (key hrun).1 hne
  · obtain ⟨n, r, hr, hrun, hi, -⟩ :=
      fp_wolfe_search_run A w init_val init_x init_g direction hws
    rw [hi, hr]
    refine ⟨fun r1 he hne => ?_, (key hrun).2⟩
    cases he
    exact (key hrun).1 hne

/-- C14, amended, in binary64 at `opt_s = 5 * 2^-1074`, `opt_minstep = 4 * 2^-1074`,
`opt_beta = 1/2`: the returned `2 * 2^-1074` is the candidate after `opt_s`, and `opt_s`
exceeds `opt_minstep`; the candidate of iteration `1` does not exceed `opt_minstep`, so
iteration `2` is not executed. -/
theorem fp_search_actual_floor_witness :
    (Double.subnormal 2 = binary64.mul (binary64.pow tieArmijo.opt_beta 0) tieArmijo.opt_s ∨
      ∃ m, Double.subnormal 2 =
          binary64.mul (binary64.pow tieArmijo.opt_beta (m + 1)) tieArmijo.opt_s ∧
        binary64.gt (binary64.mul (binary64.pow tieArmijo.opt_beta m) tieArmijo.opt_s)
          tieArmijo.opt_minstep = true) ∧
      ¬ 2 < (fp.Armijo.search binary64 tieArmijo (Double.subnormal 3) [Double.subnormal 0]
        [Double.subnormal 0] [Double.pow2 0]).trace.iters :=
  have h := fp_search_actual_floor binary64 tieArmijo tieWolfe (Double.subnormal 3)
    [Double.subnormal 0] [Double.subnormal 0] [Double.pow2 0] (by decide) (by decide)
  ⟨h.1.1 (Double.subnormal 2) fp_armijo_search_tie.1 (by decide),
    h.1.2 1 2 (by decide) (by decide)⟩

/-! ## The first iteration, in the arithmetic of `double` -/

/-- In binary64 `INFINITY > x` holds for every `x` but `+INFINITY` and NaN. -/
theorem binary64_infinity_gt (x : Double) :
    binary64.gt binary64.infinity x = true ↔ x ≠ Double.inf false ∧ x ≠ Double.nan := by
  cases x with
  | fin s k => simp [binary64, Double.lt]
  | inf s => cases s <;> simp [binary64, Double.lt]
  | nan => simp [binary64, Double.lt]

/-- C10, amended: in a call of either search that passes the check of `opt_s` (as it
does for `opt_s > 0`), the loop body is executed at least once if and only if
`opt_maxIt >= 1` and `INFINITY > opt_minstep` holds (in binary64 it fails for
`opt_minstep` equal to `+INFINITY` or NaN and holds for every other `opt_minstep`, see
`binary64_infinity_gt`); the value function is
evaluated once per executed body, and then the first time at
`init_x + (pow(opt_beta, 0)*opt_s)*direction`, which is `init_x + opt_s*direction`
whenever `pow(opt_beta, 0)*opt_s` is `opt_s` (as in IEEE arithmetic), even when
`opt_s <= opt_minstep`. -/
theorem fp_search_first_iteration {D : Type} (A : fp.Arith D) (a : fp.Armijo D)
    (w : fp.Wolfe D) (init_val : D) (init_x init_g direction : List D)
    (has : A.le a.opt_s A.zero = false) (hws : A.le w.opt_s A.zero = false) :
    ((1 ≤ (fp.Armijo.search A a init_val init_x init_g direction).trace.iters ↔
        1 ≤ a.opt_maxIt ∧ A.gt A.infinity a.opt_minstep = true) ∧
      (fp.Armijo.search A a init_val init_x init_g direction).trace.valCalls.length =
        (fp.Armijo.search A a init_val init_x init_g direction).trace.iters ∧
      (1 ≤ a.opt_maxIt → A.gt A.infinity a.opt_minstep = true →
        (fp.Armijo.search A a init_val init_x init_g direction).trace.valCalls.head? =
          some (A.axpy init_x (A.mul (A.pow a.opt_beta 0) a.opt_s) direction)) ∧
      (1 ≤ a.opt_maxIt → A.gt A.infinity a.opt_minstep = true →
        A.mul (A.pow a.opt_beta 0) a.opt_s = a.opt_s →
        (fp.Armijo.search A a init_val init_x init_g direction).trace.valCalls.head? =
          some (A.axpy init_x a.opt_s direction))) ∧
    ((1 ≤ (fp.Wolfe.search A w init_val init_x init_g direction).trace.iters ↔
        1 ≤ w.opt_maxIt ∧ A.gt A.infinity w.opt_minstep = true) ∧
      (fp.Wolfe.search A w init_val init_x init_g direction).trace.valCalls.length =
        (fp.Wolfe.search A w init_val init_x init_g direction).trace.iters ∧
      (1 ≤ w.opt_maxIt → A.gt A.infinity w.opt_minstep = true →
        (fp.Wolfe.search A w init_val init_x init_g direction).trace.valCalls.head? =
          some (A.axpy init_x (A.mul (A.pow w.opt_beta 0) w.opt_s) direction)) ∧
      (1 ≤ w.opt_maxIt → A.gt A.infinity w.opt_minstep = true →
        A.mul (A.pow w.opt_beta 0) w.opt_s = w.opt_s →
        (fp.Wolfe.search A w init_val init_x init_g direction).trace.valCalls.head? =
          some (A.axpy init_x w.opt_s direction))) := by
  constructor
  · obtain ⟨n, r, -, hrun, hi, hv⟩ :=
      fp_armijo_search_run A a init_val init_x init_g direction has
    have henter := fp_run_enters_iff hrun
    have hhead : 1 ≤ a.opt_maxIt → A.gt A.infinity a.opt_minstep = true →
        ((List.range n).map (fun k =>
          A.axpy init_x (fp.candidate A a.opt_beta a.opt_s k) direction)).head? =
          some (A.axpy init_x (A.mul (A.pow a.opt_beta 0) a.opt_s) direction) :=
      fun h1 h2 => fp_head_map_range _ (henter.mpr ⟨h1, h2⟩)
    rw [hi, hv]
    refine ⟨henter, by simp, hhead, fun h1 h2 h3 => ?_⟩
    rw [hhead h1 h2, h3]
  · obtain ⟨n, r, -, hrun, hi, hv⟩ :=
      fp_wolfe_search_run A w init_val init_x init_g direction hws
    have henter := fp_run_enters_iff hrun
    have hhead : 1 ≤ w.opt_maxIt → A.gt A.infinity w.opt_minstep = true →
        ((List.range n).map (fun k =>
          A.axpy init_x (fp.candidate A w.opt_beta w.opt_s k) direction)).head? =
          some (A.axpy init_x (A.mul (A.pow w.opt_beta 0) w.opt_s) direction) :=
      fun h1 h2 => fp_head_map_range _ (henter.mpr ⟨h1, h2⟩)
    rw [hi, hv]
    refine ⟨henter, by simp, hhead, fun h1 h2 h3 => ?_⟩
    rw [hhead h1 h2, h3]

/-- C10, amended, in binary64 at `opt_s = 4 * 2^-1074` and `opt_maxIt = 1`: with
`opt_minstep = 5 * 2^-1074 >= opt_s` both searches evaluate the value function first at
`init_x + opt_s*direction`; with `opt_minstep = +INFINITY` or `opt_minstep` a NaN no
body is executed. -/
theorem fp_search_first_iteration_witness :
    (Double.le (Double.subnormal 4) (Double.subnormal 5) = true ∧
      (fp.Armijo.search binary64 (smallStepArmijo (Double.subnormal 5)) (Double.subnormal 3)
        [Double.subnormal 0] [Double.subnormal 0] [Double.pow2 0]).trace.valCalls.head? =
        some (binary64.axpy [Double.subnormal 0] (Double.subnormal 4) [Double.pow2 0]) ∧
      (fp.Wolfe.search binary64 (smallStepWolfe (Double.subnormal 5)) (Double.subnormal 3)
        [Double.subnormal 0] [Double.subnormal 0] [Double.pow2 0]).trace.valCalls.head? =
        some (binary64.axpy [Double.subnormal 0] (Double.subnormal 4) [Double.pow2 0])) ∧
    (¬ 1 ≤ (fp.Armijo.search binary64 (smallStepArmijo (Double.inf false)) (Double.subnormal 3)
        [Double.subnormal 0] [Double.subnormal 0] [Double.pow2 0]).trace.iters ∧
      ¬ 1 ≤ (fp.Wolfe.search binary64 (smallStepWolfe Double.nan) (Double.subnormal 3)
        [Double.subnormal 0] [Double.subnormal 0] [Double.pow2 0]).trace.iters) :=
  have h := fp_search_first_iteration binary64 (smallStepArmijo (Double.subnormal 5))
    (smallStepWolfe (Double.subnormal 5)) (Double.subnormal 3) [Double.subnormal 0]
    [Double.subnormal 0] [Double.pow2 0] (by decide) (by decide)
  have h1 := fp_search_first_iteration binary64 (smallStepArmijo (Double.inf false))
    (smallStepWolfe Double.nan) (Double.subnormal 3) [Double.subnormal 0]
    [Double.subnormal 0] [Double.pow2 0] (by decide) (by decide)
  ⟨⟨by decide, h.1.2.2.2 (by decide) (by decide) (by decide),
      h.2.2.2.2 (by decide) (by decide) (by decide)⟩,
    ⟨fun hn => absurd (h1.1.1.mp hn).2 (by decide),
      fun hn => absurd (h1.2.1.mp hn).2 (by decide)⟩⟩

/-! ## The sequence of candidates, in the arithmetic of `double` -/

end npl
